import Mathlib

/-!
# Verification of `math::matrix<T>` (src/src/matrix.h)

Shallow embedding of the generic dense matrix class and its operations.

* `std::size_t` is an unsigned 64-bit integer: sizes are natural numbers and the
  two places where the source does `size_t` arithmetic (`_rows_size - 1` in
  `operator*`, `_rows_size * _columns_size` in `avg`) are taken modulo `2 ^ 64`.
* `T** _matrix` is `Option (List (List T))`: `none` is `NULL`, `some d` is the
  block of row buffers.  A read or write outside the allocated rows, or through
  `NULL`, is undefined behaviour in C++; the embedding makes it the distinguished
  outcome `Error.undefinedBehaviour`, which is not one of the thrown exceptions.
* `throw std::exception("...")` is `Except.error` with one `Error` constructor
  per message of the source.
* The element type `T` is a type parameter; `T()` and the literal `0` are `0`,
  and `+`, `-`, `*` are the operations of `T`.
-/

namespace math

/-- Number of values of `std::size_t`. -/
def SIZE_MOD : Nat := 2 ^ 64

/-- Outcomes other than a normal return. -/
inductive Error where
  /-- Thrown with message "Matrix not initialized." -/
  | notInitialized
  /-- Thrown with message "Dimension error! Number of columns and rows don't match." -/
  | dimensionRowsColumns
  /-- Thrown with message
  "Dimension error! Number of columns in m-matrix don't match rows in n-matrix." -/
  | dimensionInner
  /-- Thrown with message "Index out of range!" -/
  | indexOutOfRange
  /-- Thrown with message "Division by zero." -/
  | divisionByZero
  /-- Not an exception: an access outside allocated storage or through `NULL`. -/
  | undefinedBehaviour
  deriving DecidableEq

/-- The two exceptions whose message starts with "Dimension error!". -/
def Error.isDimensionMismatch : Error → Bool
  | .dimensionRowsColumns => true
  | .dimensionInner => true
  | _ => false

/-- The data members of `matrix<T>`. -/
structure matrix (T : Type) where
  _rows_size : Nat
  _columns_size : Nat
  _matrix : Option (List (List T))
  deriving DecidableEq

/-- The loop `for (i = start; ...; i++) body`, run for `count` iterations. -/
def forLoop {σ : Type} (body : Nat → σ → Except Error σ) : Nat → Nat → σ → Except Error σ
  | 0, _, s => .ok s
  | count + 1, i, s =>
    match body i s with
    | .error e => .error e
    | .ok s' => forLoop body count (i + 1) s'

/-- The loop `for (std::size_t i = 0; i < n; i++) body`. -/
def forRange {σ : Type} (n : Nat) (body : Nat → σ → Except Error σ) (s : σ) : Except Error σ :=
  forLoop body n 0 s

section memory
variable {T : Type}

/-- The raw read `p[i][j]` on a `T**`. -/
def rawRead (p : Option (List (List T))) (i j : Nat) : Except Error T :=
  match p with
  | none => .error .undefinedBehaviour
  | some d =>
    match d[i]? with
    | none => .error .undefinedBehaviour
    | some r =>
      match r[j]? with
      | none => .error .undefinedBehaviour
      | some x => .ok x

/-- The raw write `p[j] = v` on a row buffer `T*`. -/
def rowWrite (r : List T) (j : Nat) (v : T) : Except Error (List T) :=
  if j < r.length then .ok (r.set j v) else .error .undefinedBehaviour

/-- The raw read `p[j]` on a row buffer `T*`. -/
def rowRead (r : List T) (j : Nat) : Except Error T :=
  match r[j]? with
  | none => .error .undefinedBehaviour
  | some x => .ok x

/-- The raw write `_matrix[i][j] = v` of a member function on its own storage. -/
def poke (m : matrix T) (i j : Nat) (v : T) : Except Error (matrix T) :=
  match m._matrix with
  | none => .error .undefinedBehaviour
  | some d =>
    match d[i]? with
    | none => .error .undefinedBehaviour
    | some r =>
      match rowWrite r j v with
      | .error e => .error e
      | .ok r' => .ok { m with _matrix := some (d.set i r') }

end memory

namespace matrix
variable {T : Type}

/-- Source: `matrix<T>::clear` (lines 136-152). -/
def clear (m : matrix T) : matrix T :=
  match m._matrix with
  | none => m
  | some _ => { _rows_size := 0, _columns_size := 0, _matrix := none }

/-- Source: `matrix<T>::init` (lines 114-134).  The freshly allocated buffers hold
arbitrary values (`default`) until the second pair of loops stores `T()`. -/
def init [Zero T] [Inhabited T] (m : matrix T) : Except Error (matrix T) :=
  let m1 : matrix T :=
    { m with _matrix := some (List.replicate m._rows_size (List.replicate m._columns_size default)) }
  forRange m1._rows_size (fun i s =>
    forRange m1._columns_size (fun j s => poke s i j 0) s) m1

/-- Source: `matrix<T>::matrix(std::size_t rows, std::size_t columns)` (lines 65-74). -/
def ctor [Zero T] [Inhabited T] (rows columns : Nat) : Except Error (matrix T) :=
  let m0 : matrix T := { _rows_size := rows, _columns_size := columns, _matrix := none }
  let m1 := if m0._matrix.isSome then clear m0 else m0
  init m1

/-- Source: `matrix<T>::copy_matrix` (lines 98-112). -/
def copy_matrix (this : matrix T) (mat : Option (List (List T))) : Except Error (matrix T) :=
  if this._matrix.isNone then .error .notInitialized
  else
    forRange this._rows_size (fun i s =>
      forRange this._columns_size (fun j s =>
        match rawRead mat i j with
        | .error e => .error e
        | .ok x => poke s i j x) s) this

/-- Source: `matrix<T>::matrix(T** mat, std::size_t rows, std::size_t columns)` (lines 76-83). -/
def ctor_from [Zero T] [Inhabited T] (mat : Option (List (List T))) (rows columns : Nat) :
    Except Error (matrix T) :=
  match ctor rows columns with
  | .error e => .error e
  | .ok this => copy_matrix this mat

/-- Source: the copy constructor `matrix<T>::matrix(const matrix<T>& mat)` (lines 85-89). -/
def ctor_copy [Zero T] [Inhabited T] (mat : matrix T) : Except Error (matrix T) :=
  ctor_from mat._matrix mat._rows_size mat._columns_size

/-- Source: `matrix<T>::operator[]` (lines 309-320): the checked access to a row, which
returns the row buffer `T*`.  `row < 0` never holds for a `std::size_t`. -/
def operator_index (this : matrix T) (row : Nat) : Except Error (List T) :=
  match this._matrix with
  | none => .error .notInitialized
  | some d =>
    if row ≥ this._rows_size then .error .indexOutOfRange
    else
      match d[row]? with
      | none => .error .undefinedBehaviour
      | some r => .ok r

/-- The expression `m[row][col]` read as a value: `operator[]` followed by the raw
index into the returned `T*`. -/
def readCell (m : matrix T) (row col : Nat) : Except Error T :=
  match operator_index m row with
  | .error e => .error e
  | .ok r => rowRead r col

/-- The statement `m[row][col] = v`: `operator[]` followed by a raw store through the
returned `T*`. -/
def writeCell (m : matrix T) (row col : Nat) (v : T) : Except Error (matrix T) :=
  match operator_index m row with
  | .error e => .error e
  | .ok _ => poke m row col v

/-- Source: `matrix<T>::operator+` (lines 154-177). -/
def operator_add [Zero T] [Inhabited T] [Add T] (this n : matrix T) : Except Error (matrix T) :=
  if this._matrix.isNone then .error .notInitialized
  else if this._rows_size ≠ n._rows_size ∨ this._columns_size ≠ n._columns_size then
    .error .dimensionRowsColumns
  else
    match ctor this._rows_size this._columns_size with
    | .error e => .error e
    | .ok res =>
      forRange this._rows_size (fun i res =>
        forRange this._columns_size (fun j res =>
          match rawRead this._matrix i j with
          | .error e => .error e
          | .ok x =>
            match rawRead n._matrix i j with
            | .error e => .error e
            | .ok y => writeCell res i j (x + y)) res) res

/-- Source: `matrix<T>::operator-` (lines 179-202). -/
def operator_sub [Zero T] [Inhabited T] [Sub T] (this n : matrix T) : Except Error (matrix T) :=
  if this._matrix.isNone then .error .notInitialized
  else if this._rows_size ≠ n._rows_size ∨ this._columns_size ≠ n._columns_size then
    .error .dimensionRowsColumns
  else
    match ctor this._rows_size this._columns_size with
    | .error e => .error e
    | .ok res =>
      forRange this._rows_size (fun i res =>
        forRange this._columns_size (fun j res =>
          match rawRead this._matrix i j with
          | .error e => .error e
          | .ok x =>
            match rawRead n._matrix i j with
            | .error e => .error e
            | .ok y => writeCell res i j (x - y)) res) res

/-- Source: `matrix<T>::operator*` (lines 204-230).  The inner bound `_rows_size - 1` is
computed in `std::size_t`. -/
def operator_mul [Zero T] [Inhabited T] [Add T] [Mul T] (this n : matrix T) :
    Except Error (matrix T) :=
  if this._matrix.isNone then .error .notInitialized
  else if this._columns_size ≠ n._rows_size then .error .dimensionInner
  else
    match ctor this._rows_size n._columns_size with
    | .error e => .error e
    | .ok res =>
      forRange this._rows_size (fun i res =>
        forRange n._columns_size (fun j res =>
          forRange ((this._rows_size + SIZE_MOD - 1) % SIZE_MOD) (fun inner res =>
            match rawRead this._matrix i inner with
            | .error e => .error e
            | .ok x =>
              match rawRead n._matrix inner j with
              | .error e => .error e
              | .ok y =>
                match readCell res i j with
                | .error e => .error e
                | .ok c => writeCell res i j (c + x * y)) res) res) res

/-- Source: `matrix<T>::scalar` (lines 232-251). -/
def scalar [Zero T] [Inhabited T] [Mul T] (this : matrix T) (s : T) : Except Error (matrix T) :=
  if this._matrix.isNone then .error .notInitialized
  else
    match ctor_copy this with
    | .error e => .error e
    | .ok res =>
      forRange res._rows_size (fun i res =>
        forRange res._columns_size (fun j res =>
          match readCell res i j with
          | .error e => .error e
          | .ok c => writeCell res i j (c * s)) res) res

/-- Source: `matrix<T>::transpose` (lines 253-272). -/
def transpose [Zero T] [Inhabited T] (this : matrix T) : Except Error (matrix T) :=
  if this._matrix.isNone then .error .notInitialized
  else
    match ctor this._columns_size this._rows_size with
    | .error e => .error e
    | .ok res =>
      forRange res._rows_size (fun i res =>
        forRange res._columns_size (fun j res =>
          match rawRead this._matrix j i with
          | .error e => .error e
          | .ok x => writeCell res i j x) res) res

/-- Source: `matrix<T>::sum` (lines 274-292). -/
def sum [Zero T] [Add T] (this : matrix T) : Except Error T :=
  if this._matrix.isNone then .error .notInitialized
  else
    forRange this._rows_size (fun i acc =>
      forRange this._columns_size (fun j acc =>
        match rawRead this._matrix i j with
        | .error e => .error e
        | .ok x => .ok (acc + x)) acc) 0

/-- Source: `matrix<T>::avg` (lines 294-307).  The quotient `sum() / items` of a `T` by a
`std::size_t`, converted to `double`, depends on the element type and is the parameter
`divide`. -/
def avg {D : Type} [Zero T] [Add T] (divide : T → Nat → D) (this : matrix T) : Except Error D :=
  if this._matrix.isNone then .error .notInitialized
  else
    let items := (this._rows_size * this._columns_size) % SIZE_MOD
    if items = 0 then .error .divisionByZero
    else
      match sum this with
      | .error e => .error e
      | .ok s => .ok (divide s items)

/-- Source: `matrix<T>::nr_of_rows` (lines 343-348). -/
def nr_of_rows (this : matrix T) : Nat := this._rows_size

/-- Source: `matrix<T>::nr_of_columns` (lines 350-355). -/
def nr_of_columns (this : matrix T) : Nat := this._columns_size

/-- Source: `matrix<T>::operator=` (lines 322-341).  Objects live in a store indexed by
address, so that `this == &mat` is the comparison of the two addresses. -/
def operator_assign [Zero T] [Inhabited T] (store : Nat → matrix T) (this mat : Nat) :
    Except Error (Nat → matrix T) :=
  let store1 :=
    if (store this)._matrix.isSome then Function.update store this (clear (store this)) else store
  if this = mat then .ok store1
  else
    let t : matrix T :=
      { store1 this with
        _rows_size := (store1 mat)._rows_size, _columns_size := (store1 mat)._columns_size }
    match init t with
    | .error e => .error e
    | .ok t1 =>
      match copy_matrix t1 (store1 mat)._matrix with
      | .error e => .error e
      | .ok t2 => .ok (Function.update store1 this t2)

end matrix

/-- The quotient `sum() / items` for the element type `int`: by the usual arithmetic
conversions the `int` is converted to the unsigned 64-bit `std::size_t` and the division
is the unsigned integer division.  The result is the integer that is then converted to
`double`. -/
def int_div_size_t (s : Int) (items : Nat) : Nat :=
  (s % (SIZE_MOD : Int)).toNat / items

/-- The pointer is not `NULL` and points to `R` row buffers of `C` elements each. -/
def storageShape {T : Type} (R C : Nat) : Option (List (List T)) → Prop
  | none => False
  | some d => d.length = R ∧ ∀ r ∈ d, r.length = C

instance storageShape.decidable {T : Type} (R C : Nat) :
    (p : Option (List (List T))) → Decidable (storageShape R C p)
  | none => isFalse (fun h => h)
  | some d => inferInstanceAs (Decidable (d.length = R ∧ ∀ r ∈ d, r.length = C))

/-- A matrix is initialised when its sizes are `std::size_t` values and its storage is
allocated with `_rows_size` row buffers of `_columns_size` elements each. -/
def initialised {T : Type} (m : matrix T) : Prop :=
  m._rows_size < SIZE_MOD ∧ m._columns_size < SIZE_MOD ∧
    storageShape m._rows_size m._columns_size m._matrix

instance initialised.decidable {T : Type} (m : matrix T) : Decidable (initialised m) :=
  inferInstanceAs (Decidable (_ ∧ _ ∧ _))

/-- The matrix has sizes `R` and `C` and allocated storage of exactly that shape. -/
def hasShape {T : Type} (R C : Nat) (m : matrix T) : Prop :=
  m._rows_size = R ∧ m._columns_size = C ∧ storageShape R C m._matrix

instance hasShape.decidable {T : Type} (R C : Nat) (m : matrix T) :
    Decidable (hasShape R C m) :=
  inferInstanceAs (Decidable (_ ∧ _ ∧ _))

/-- The content of cell `(i, j)` of the storage, when it lies inside the storage. -/
def cell {T : Type} (m : matrix T) (i j : Nat) : Option T :=
  match m._matrix with
  | none => none
  | some d =>
    match d[i]? with
    | none => none
    | some r => r[j]?

/-- The matrix value with the given sizes and row buffers: `of_rows 2 2 [[1,2],[3,4]]` is
the 2 x 2 matrix `A` of the concrete scenario. -/
def of_rows {T : Type} (rows columns : Nat) (d : List (List T)) : matrix T :=
  { _rows_size := rows, _columns_size := columns, _matrix := some d }

/-- The matrix `A = [[1,2],[3,4]]` of the concrete scenario, with `int` elements. -/
def scenario_A : matrix Int := of_rows 2 2 [[1, 2], [3, 4]]

/-- The matrix `B = [[5,6],[7,8]]` of the concrete scenario, with `int` elements. -/
def scenario_B : matrix Int := of_rows 2 2 [[5, 6], [7, 8]]

/-- The value of cell `(i, j)`; `T()` when `(i, j)` lies outside the storage. -/
def entry {T : Type} [Zero T] (m : matrix T) (i j : Nat) : T :=
  (cell m i j).getD 0

/-- The left-to-right accumulation `((0 + a[i][0] * b[0][j]) + a[i][1] * b[1][j]) + ...`
of the first `K` terms of the dot product of row `i` of `a` and column `j` of `b`. -/
def dot_upto {T : Type} [Zero T] [Add T] [Mul T] (a b : matrix T) (i j K : Nat) : T :=
  (List.range K).foldl (fun acc k => acc + entry a i k * entry b k j) 0

/-- The standard matrix product as the specification words it: a matrix of shape
`a.rows x b.columns` with `r[i][j] = Σ_{k=0}^{a.columns-1} a[i][k] * b[k][j]`. -/
def spec_product {T : Type} [Zero T] [Add T] [Mul T] (a b : matrix T) : matrix T :=
  of_rows a._rows_size b._columns_size
    ((List.range a._rows_size).map fun i =>
      (List.range b._columns_size).map fun j => dot_upto a b i j a._columns_size)

/-- The `R x C` matrix of `int` whose cells are all 1. -/
def ones (R C : Nat) : matrix Int :=
  of_rows R C (List.replicate R (List.replicate C 1))

/-- The shape invariant of the data model: the storage has exactly `_rows_size` row
buffers, each of exactly `_columns_size` elements; a released matrix (`NULL` storage)
has no rows. -/
def shape_invariant {T : Type} (m : matrix T) : Prop :=
  match m._matrix with
  | none => m._rows_size = 0
  | some d => d.length = m._rows_size ∧ ∀ r ∈ d, r.length = m._columns_size

instance shape_invariant.decidable {T : Type} (m : matrix T) :
    Decidable (shape_invariant m) :=
  match h : m._matrix with
  | none => decidable_of_iff (m._rows_size = 0) (by simp [shape_invariant, h])
  | some d =>
    decidable_of_iff (d.length = m._rows_size ∧ ∀ r ∈ d, r.length = m._columns_size)
      (by simp [shape_invariant, h])

end math

namespace math

open matrix

/-! ## Loops -/

/-- Invariant rule for a counted loop: a predicate that holds at the start and is carried
over by every iteration holds at the end, and the loop returns normally. -/
theorem forLoop_inv {σ : Type} (P : Nat → σ → Prop) (body : Nat → σ → Except Error σ) :
    ∀ (k i : Nat) (s : σ), P i s →
      (∀ t s, i ≤ t → t < i + k → P t s → ∃ s', body t s = .ok s' ∧ P (t + 1) s') →
      ∃ s', forLoop body k i s = .ok s' ∧ P (i + k) s' := by
  intro k
  induction k with
  | zero => intro i s h _; exact ⟨s, rfl, by simpa using h⟩
  | succ k ih =>
    intro i s h hstep
    obtain ⟨s1, hs1, hP1⟩ := hstep i s (le_refl _) (by omega) h
    obtain ⟨s2, hs2, hP2⟩ :=
      ih (i + 1) s1 hP1 (fun t s ht1 ht2 hP => hstep t s (by omega) (by omega) hP)
    refine ⟨s2, ?_, ?_⟩
    · simp only [forLoop, hs1]; exact hs2
    · have hik : i + (k + 1) = i + 1 + k := by omega
      rw [hik]; exact hP2

/-- Invariant rule for `for (i = 0; i < n; i++)`. -/
theorem forRange_inv {σ : Type} (P : Nat → σ → Prop) (body : Nat → σ → Except Error σ)
    (n : Nat) (s : σ) (h0 : P 0 s)
    (hstep : ∀ t s, t < n → P t s → ∃ s', body t s = .ok s' ∧ P (t + 1) s') :
    ∃ s', forRange n body s = .ok s' ∧ P n s' := by
  have h := forLoop_inv P body n 0 s h0 (fun t s _ ht hP => hstep t s (by omega) hP)
  simpa [forRange] using h

/-- An error raised by a loop was raised by one of its iterations. -/
theorem forLoop_error {σ : Type} (Q : Error → Prop) (body : Nat → σ → Except Error σ)
    (hb : ∀ t s e, body t s = .error e → Q e) :
    ∀ (k i : Nat) (s : σ) (e : Error), forLoop body k i s = .error e → Q e := by
  intro k
  induction k with
  | zero => intro i s e h; simp [forLoop] at h
  | succ k ih =>
    intro i s e h
    simp only [forLoop] at h
    cases hbs : body i s with
    | error e1 =>
      rw [hbs] at h
      simp only [Except.error.injEq] at h
      exact h ▸ hb i s e1 hbs
    | ok s1 =>
      rw [hbs] at h
      exact ih (i + 1) s1 e h

/-- An error raised by `forRange` was raised by one of its iterations. -/
theorem forRange_error {σ : Type} (Q : Error → Prop) (body : Nat → σ → Except Error σ)
    (hb : ∀ t s e, body t s = .error e → Q e) (n : Nat) (s : σ) (e : Error)
    (h : forRange n body s = .error e) : Q e :=
  forLoop_error Q body hb n 0 s e h

/-! ## Storage -/

theorem storageShape_iff {T : Type} {R C : Nat} {p : Option (List (List T))} :
    storageShape R C p ↔ ∃ d, p = some d ∧ d.length = R ∧ ∀ r ∈ d, r.length = C := by
  cases p with
  | none => simp [storageShape]
  | some d => simp [storageShape]

theorem hasShape_iff {T : Type} {R C : Nat} {m : matrix T} :
    hasShape R C m ↔ m._rows_size = R ∧ m._columns_size = C ∧
      ∃ d, m._matrix = some d ∧ d.length = R ∧ ∀ r ∈ d, r.length = C := by
  simp only [hasShape, storageShape_iff]

theorem initialised_iff {T : Type} {m : matrix T} :
    initialised m ↔ m._rows_size < SIZE_MOD ∧ m._columns_size < SIZE_MOD ∧
      ∃ d, m._matrix = some d ∧ d.length = m._rows_size ∧
        ∀ r ∈ d, r.length = m._columns_size := by
  simp only [initialised, storageShape_iff]

theorem initialised_iff_hasShape {T : Type} (m : matrix T) :
    initialised m ↔ m._rows_size < SIZE_MOD ∧ m._columns_size < SIZE_MOD ∧
      hasShape m._rows_size m._columns_size m := by
  simp [initialised, hasShape]

theorem hasShape.cell_some {T : Type} {R C : Nat} {m : matrix T} (h : hasShape R C m)
    {i j : Nat} (hi : i < R) (hj : j < C) : ∃ x, cell m i j = some x := by
  obtain ⟨_, _, d, hd, hlen, hrow⟩ := hasShape_iff.mp h
  have hi2 : i < d.length := by omega
  have hr : (d[i]).length = C := hrow _ (List.getElem_mem hi2)
  have hj2 : j < (d[i]).length := by omega
  exact ⟨(d[i])[j], by simp [cell, hd, List.getElem?_eq_getElem hi2, List.getElem?_eq_getElem hj2]⟩

theorem rawRead_of_cell {T : Type} {m : matrix T} {i j : Nat} {x : T}
    (h : cell m i j = some x) : rawRead m._matrix i j = .ok x := by
  unfold cell at h
  unfold rawRead
  cases hm : m._matrix with
  | none => simp [hm] at h
  | some d =>
    simp only [hm] at h ⊢
    cases hd : d[i]? with
    | none => simp [hd] at h
    | some r =>
      simp only [hd] at h ⊢
      simp [h]

theorem poke_spec {T : Type} {R C : Nat} {m : matrix T} (h : hasShape R C m)
    {i j : Nat} (hi : i < R) (hj : j < C) (v : T) :
    ∃ m', poke m i j v = .ok m' ∧ hasShape R C m' ∧
      ∀ a b, cell m' a b = if a = i ∧ b = j then some v else cell m a b := by
  obtain ⟨hR, hC, d, hd, hlen, hrow⟩ := hasShape_iff.mp h
  have hi2 : i < d.length := by omega
  have hr : (d[i]).length = C := hrow _ (List.getElem_mem hi2)
  have hj2 : j < (d[i]).length := by omega
  refine ⟨{ m with _matrix := some (d.set i ((d[i]).set j v)) }, ?_, ?_, ?_⟩
  · simp [poke, hd, List.getElem?_eq_getElem hi2, rowWrite, hj2]
  · refine hasShape_iff.mpr ⟨hR, hC, _, rfl, by simpa using hlen, ?_⟩
    intro r hr'
    rcases List.mem_or_eq_of_mem_set hr' with h1 | h1
    · exact hrow r h1
    · rw [h1]; simpa using hr
  · intro a b
    by_cases ha : a = i
    · subst ha
      by_cases hb : b = j
      · subst hb
        simp [cell, hi2, hj2]
      · have hb' : j ≠ b := fun h => hb h.symm
        simp [cell, hd, hi2, hb, List.getElem?_set_ne hb']
    · have ha' : i ≠ a := fun h => ha h.symm
      simp [cell, hd, ha, List.getElem?_set_ne ha']

theorem writeCell_spec {T : Type} {R C : Nat} {m : matrix T} (h : hasShape R C m)
    {i j : Nat} (hi : i < R) (hj : j < C) (v : T) :
    ∃ m', writeCell m i j v = .ok m' ∧ hasShape R C m' ∧
      ∀ a b, cell m' a b = if a = i ∧ b = j then some v else cell m a b := by
  obtain ⟨m', h1, h2, h3⟩ := poke_spec h hi hj v
  refine ⟨m', ?_, h2, h3⟩
  obtain ⟨hR, hC, d, hd, hlen, hrow⟩ := hasShape_iff.mp h
  have hi2 : i < d.length := by omega
  have hi3 : ¬ (i ≥ m._rows_size) := by omega
  simp [writeCell, operator_index, hd, hi3, List.getElem?_eq_getElem hi2, h1]

theorem readCell_of_cell {T : Type} {R C : Nat} {m : matrix T} (h : hasShape R C m)
    {i j : Nat} (hi : i < R) {x : T} (hx : cell m i j = some x) :
    readCell m i j = .ok x := by
  obtain ⟨hR, hC, d, hd, hlen, hrow⟩ := hasShape_iff.mp h
  have hi2 : i < d.length := by omega
  have hi3 : ¬ (i ≥ m._rows_size) := by omega
  simp only [cell, hd, List.getElem?_eq_getElem hi2] at hx
  simp [readCell, operator_index, hd, hi3, List.getElem?_eq_getElem hi2, rowRead, hx]

/-- Row-major filling: a doubly nested loop whose body stores, at cell `(i, j)`, a value
related to `(i, j)` by `G` and leaves the other cells alone, returns a matrix of the same
shape all of whose cells are related by `G`.  The body may rely on cell `(i, j)` still
having its initial content. -/
theorem fill_loop_bound {T : Type} (R C : Nat) (G : Nat → Nat → T → Prop)
    (bound : matrix T → Nat) (hbound : ∀ m, hasShape R C m → bound m = C)
    (upd : Nat → Nat → matrix T → Except Error (matrix T)) (m0 : matrix T)
    (h0 : hasShape R C m0)
    (hupd : ∀ m i j, i < R → j < C → hasShape R C m → cell m i j = cell m0 i j →
      ∃ m' x, upd i j m = .ok m' ∧ G i j x ∧ hasShape R C m' ∧
        ∀ a b, cell m' a b = if a = i ∧ b = j then some x else cell m a b) :
    ∃ m', forRange R (fun i s => forRange (bound s) (fun j s => upd i j s) s) m0 = .ok m' ∧
      hasShape R C m' ∧ ∀ a b, a < R → b < C → ∃ x, cell m' a b = some x ∧ G a b x := by
  -- outer invariant: rows below `i` are filled, the other rows are untouched
  let P : Nat → matrix T → Prop := fun i m =>
    hasShape R C m ∧ (∀ a b, a < i → b < C → ∃ x, cell m a b = some x ∧ G a b x) ∧
      ∀ a b, i ≤ a → cell m a b = cell m0 a b
  have hout := forRange_inv P (fun i s => forRange (bound s) (fun j s => upd i j s) s) R m0
    ⟨h0, fun a b ha _ => absurd ha (Nat.not_lt_zero a), fun _ _ _ => rfl⟩ ?_
  · obtain ⟨m', hm', hs, hfill, _⟩ := hout
    exact ⟨m', hm', hs, fun a b ha hb => hfill a b ha hb⟩
  · intro i m hi hP
    obtain ⟨hs, hfill, hrest⟩ := hP
    -- inner invariant: in row `i` the cells below `j` are filled
    let Q : Nat → matrix T → Prop := fun j m1 =>
      hasShape R C m1 ∧ (∀ a b, a < i → b < C → ∃ x, cell m1 a b = some x ∧ G a b x) ∧
        (∀ b, b < j → ∃ x, cell m1 i b = some x ∧ G i b x) ∧
        (∀ b, j ≤ b → cell m1 i b = cell m0 i b) ∧
        ∀ a b, i < a → cell m1 a b = cell m0 a b
    have hin := forRange_inv Q (fun j s => upd i j s) C m
      ⟨hs, hfill, fun b hb => absurd hb (Nat.not_lt_zero b),
        fun b _ => hrest i b (le_refl _), fun a b ha => hrest a b (Nat.le_of_lt ha)⟩ ?_
    · obtain ⟨m1, hm1, hs1, hfill1, hrow1, _, hrest1⟩ := hin
      refine ⟨m1, by simpa only [hbound m hs] using hm1, hs1, ?_, ?_⟩
      · intro a b ha hb
        rcases Nat.lt_succ_iff_lt_or_eq.mp ha with h | h
        · exact hfill1 a b h hb
        · subst h; exact hrow1 b hb
      · intro a b ha
        exact hrest1 a b ha
    · intro j m1 hj hQ
      obtain ⟨hs1, hfill1, hrow1, hrow2, hrest1⟩ := hQ
      obtain ⟨m2, x, hm2, hG, hs2, hcells⟩ := hupd m1 i j hi hj hs1 (hrow2 j (le_refl _))
      refine ⟨m2, hm2, hs2, ?_, ?_, ?_, ?_⟩
      · intro a b ha hb
        have hne : ¬ (a = i ∧ b = j) := fun h => absurd h.1 (Nat.ne_of_lt ha)
        rw [hcells a b, if_neg hne]
        exact hfill1 a b ha hb
      · intro b hb
        rcases Nat.lt_succ_iff_lt_or_eq.mp hb with h | h
        · have hne : ¬ (i = i ∧ b = j) := fun h2 => absurd h2.2 (Nat.ne_of_lt h)
          rw [hcells i b, if_neg hne]
          exact hrow1 b h
        · subst h
          exact ⟨x, by rw [hcells i b, if_pos ⟨rfl, rfl⟩], hG⟩
      · intro b hb
        have hne : ¬ (i = i ∧ b = j) := fun h2 => by omega
        rw [hcells i b, if_neg hne]
        exact hrow2 b (by omega)
      · intro a b ha
        have hne : ¬ (a = i ∧ b = j) := fun h2 => by omega
        rw [hcells a b, if_neg hne]
        exact hrest1 a b ha

/-- Row-major filling with a column bound that does not depend on the loop state. -/
theorem fill_loop {T : Type} (R C : Nat) (G : Nat → Nat → T → Prop)
    (upd : Nat → Nat → matrix T → Except Error (matrix T)) (m0 : matrix T)
    (h0 : hasShape R C m0)
    (hupd : ∀ m i j, i < R → j < C → hasShape R C m → cell m i j = cell m0 i j →
      ∃ m' x, upd i j m = .ok m' ∧ G i j x ∧ hasShape R C m' ∧
        ∀ a b, cell m' a b = if a = i ∧ b = j then some x else cell m a b) :
    ∃ m', forRange R (fun i s => forRange C (fun j s => upd i j s) s) m0 = .ok m' ∧
      hasShape R C m' ∧ ∀ a b, a < R → b < C → ∃ x, cell m' a b = some x ∧ G a b x :=
  fill_loop_bound R C G (fun _ => C) (fun _ _ => rfl) upd m0 h0 hupd

/-- The freshly allocated block of `init` has the requested shape. -/
theorem hasShape_alloc {T : Type} (R C : Nat) (x : T) :
    hasShape R C
      ({ _rows_size := R, _columns_size := C,
         _matrix := some (List.replicate R (List.replicate C x)) } : matrix T) := by
  refine hasShape_iff.mpr ⟨rfl, rfl, _, rfl, by simp, ?_⟩
  intro r hr
  rw [List.eq_of_mem_replicate hr]
  simp

/-- The constructor `matrix(rows, columns)` returns a matrix of that shape whose cells
are all `T()`. -/
theorem ctor_spec {T : Type} [Zero T] [Inhabited T] (R C : Nat) :
    ∃ m : matrix T, ctor R C = .ok m ∧ hasShape R C m ∧
      ∀ a b, a < R → b < C → cell m a b = some 0 := by
  have h := fill_loop R C (fun _ _ x => x = (0 : T)) (fun i j s => poke s i j 0)
    ({ _rows_size := R, _columns_size := C,
       _matrix := some (List.replicate R (List.replicate C default)) } : matrix T)
    (hasShape_alloc R C default) ?_
  · obtain ⟨m, hm, hs, hc⟩ := h
    refine ⟨m, ?_, hs, ?_⟩
    · simpa [ctor, init] using hm
    · intro a b ha hb
      obtain ⟨x, hx, hx0⟩ := hc a b ha hb
      rw [hx, hx0]
  · intro m i j hi hj hs _
    obtain ⟨m', h1, h2, h3⟩ := poke_spec hs hi hj (0 : T)
    exact ⟨m', 0, h1, rfl, h2, h3⟩

/-- The loops shared by `operator+` and `operator-`: every cell of the result receives
`op` of the two operand cells. -/
theorem pointwise_loop {T : Type} (op : T → T → T) {R C : Nat} {a b res : matrix T}
    (ha : hasShape R C a) (hb : hasShape R C b) (hres : hasShape R C res) :
    ∃ r, forRange R (fun i res =>
        forRange C (fun j res =>
          match rawRead a._matrix i j with
          | .error e => .error e
          | .ok x =>
            match rawRead b._matrix i j with
            | .error e => .error e
            | .ok y => writeCell res i j (op x y)) res) res = .ok r ∧
      hasShape R C r ∧
      ∀ i j, i < R → j < C →
        ∃ x y, cell a i j = some x ∧ cell b i j = some y ∧ cell r i j = some (op x y) := by
  have h := fill_loop R C
    (fun i j v => ∃ x y, cell a i j = some x ∧ cell b i j = some y ∧ v = op x y)
    (fun i j res =>
      match rawRead a._matrix i j with
      | .error e => .error e
      | .ok x =>
        match rawRead b._matrix i j with
        | .error e => .error e
        | .ok y => writeCell res i j (op x y)) res hres ?_
  · obtain ⟨r, hr, hs, hc⟩ := h
    refine ⟨r, hr, hs, ?_⟩
    intro i j hi hj
    obtain ⟨v, hv, x, y, hx, hy, hxy⟩ := hc i j hi hj
    exact ⟨x, y, hx, hy, by rw [hv, hxy]⟩
  · intro m i j hi hj hs _
    obtain ⟨x, hx⟩ := ha.cell_some hi hj
    obtain ⟨y, hy⟩ := hb.cell_some hi hj
    obtain ⟨m', h1, h2, h3⟩ := writeCell_spec hs hi hj (op x y)
    refine ⟨m', op x y, ?_, ⟨x, y, hx, hy, rfl⟩, h2, h3⟩
    simp only [rawRead_of_cell hx, rawRead_of_cell hy]
    exact h1

theorem initialised.isNone {T : Type} {m : matrix T} (h : initialised m) :
    m._matrix.isNone = false := by
  obtain ⟨_, _, d, hd, _⟩ := initialised_iff.mp h
  simp [hd]

theorem initialised.shape {T : Type} {m : matrix T} (h : initialised m) :
    hasShape m._rows_size m._columns_size m :=
  ((initialised_iff_hasShape m).mp h).2.2

theorem hasShape.initialised {T : Type} {R C : Nat} {m : matrix T} (h : hasShape R C m)
    (hR : R < SIZE_MOD) (hC : C < SIZE_MOD) : initialised m := by
  obtain ⟨h1, h2, d, hd, hlen, hrow⟩ := hasShape_iff.mp h
  exact initialised_iff.mpr
    ⟨by omega, by omega, d, hd, by omega, fun r hr => by rw [hrow r hr, h2]⟩

/-- On initialised operands of the same shape `operator+` and `operator-` return
normally, and the result has that shape and the cell-wise sums, respectively
differences. -/
theorem add_sub_spec {T : Type} [Zero T] [Inhabited T] [Add T] [Sub T]
    (a b : matrix T) (ha : initialised a) (hb : initialised b)
    (hrows : a._rows_size = b._rows_size) (hcols : a._columns_size = b._columns_size) :
    (∃ r, operator_add a b = .ok r ∧ initialised r ∧
        r.nr_of_rows = a.nr_of_rows ∧ r.nr_of_columns = a.nr_of_columns ∧
        ∀ i j, i < a.nr_of_rows → j < a.nr_of_columns →
          ∃ x y, cell a i j = some x ∧ cell b i j = some y ∧ cell r i j = some (x + y)) ∧
    (∃ r, operator_sub a b = .ok r ∧ initialised r ∧
        r.nr_of_rows = a.nr_of_rows ∧ r.nr_of_columns = a.nr_of_columns ∧
        ∀ i j, i < a.nr_of_rows → j < a.nr_of_columns →
          ∃ x y, cell a i j = some x ∧ cell b i j = some y ∧ cell r i j = some (x - y)) := by
  have hsa := ha.shape
  have hsb : hasShape a._rows_size a._columns_size b := by
    have h := hb.shape
    rwa [← hrows, ← hcols] at h
  obtain ⟨res, hres, hsres, _⟩ := ctor_spec (T := T) a._rows_size a._columns_size
  have hdim : ¬ (a._rows_size ≠ b._rows_size ∨ a._columns_size ≠ b._columns_size) := by
    simp [hrows, hcols]
  refine ⟨?_, ?_⟩
  · obtain ⟨r, hr, hs, hc⟩ := pointwise_loop (fun x y : T => x + y) hsa hsb hsres
    refine ⟨r, ?_, hs.initialised ha.1 ha.2.1, hs.1, hs.2.1, hc⟩
    simp only [operator_add, ha.isNone, hdim, hres]
    simpa using hr
  · obtain ⟨r, hr, hs, hc⟩ := pointwise_loop (fun x y : T => x - y) hsa hsb hsres
    refine ⟨r, ?_, hs.initialised ha.1 ha.2.1, hs.1, hs.2.1, hc⟩
    simp only [operator_sub, ha.isNone, hdim, hres]
    simpa using hr

/-- C2: for initialised matrices `a` and `b` of the same shape, `a + b` and `a - b`
return an initialised matrix of that shape whose cell `(i, j)` is `a[i][j] + b[i][j]`,
respectively `a[i][j] - b[i][j]`; for `A = [[1,2],[3,4]]` and `B = [[5,6],[7,8]]` the
results are `[[6,8],[10,12]]` and `[[-4,-4],[-4,-4]]`. -/
theorem C2_add_sub_cellwise {T : Type} [Zero T] [Inhabited T] [Add T] [Sub T]
    (a b : matrix T) (ha : initialised a) (hb : initialised b)
    (hrows : a.nr_of_rows = b.nr_of_rows) (hcols : a.nr_of_columns = b.nr_of_columns) :
    (∃ r, operator_add a b = .ok r ∧ initialised r ∧
        r.nr_of_rows = a.nr_of_rows ∧ r.nr_of_columns = a.nr_of_columns ∧
        ∀ i j, i < a.nr_of_rows → j < a.nr_of_columns →
          ∃ x y, cell a i j = some x ∧ cell b i j = some y ∧ cell r i j = some (x + y)) ∧
    (∃ r, operator_sub a b = .ok r ∧ initialised r ∧
        r.nr_of_rows = a.nr_of_rows ∧ r.nr_of_columns = a.nr_of_columns ∧
        ∀ i j, i < a.nr_of_rows → j < a.nr_of_columns →
          ∃ x y, cell a i j = some x ∧ cell b i j = some y ∧ cell r i j = some (x - y)) ∧
    operator_add scenario_A scenario_B = .ok (of_rows 2 2 [[6, 8], [10, 12]]) ∧
    operator_sub scenario_A scenario_B = .ok (of_rows 2 2 [[-4, -4], [-4, -4]]) :=
  ⟨(add_sub_spec a b ha hb hrows hcols).1, (add_sub_spec a b ha hb hrows hcols).2,
    rfl, rfl⟩

/-- C2 at the concrete scenario: the hypotheses hold for `A` and `B`. -/
theorem C2_add_sub_cellwise_witness :
    initialised scenario_A ∧ initialised scenario_B ∧
      ∃ r, operator_add scenario_A scenario_B = .ok r ∧ r.nr_of_rows = scenario_A.nr_of_rows :=
  have hA : initialised scenario_A := by decide
  have hB : initialised scenario_B := by decide
  have h := (C2_add_sub_cellwise scenario_A scenario_B hA hB rfl rfl).1
  ⟨hA, hB, h.elim fun r hr => ⟨r, hr.1, hr.2.2.1⟩⟩

/-- The loops of `transpose`: cell `(i, j)` of the result receives cell `(j, i)` of the
operand. -/
theorem transpose_loop {T : Type} {R C : Nat} {a res : matrix T}
    (ha : hasShape R C a) (hres : hasShape C R res) :
    ∃ r, forRange C (fun i res =>
        forRange res._columns_size (fun j res =>
          match rawRead a._matrix j i with
          | .error e => .error e
          | .ok x => writeCell res i j x) res) res = .ok r ∧
      hasShape C R r ∧
      ∀ i j, i < C → j < R → ∃ x, cell a j i = some x ∧ cell r i j = some x := by
  have h := fill_loop_bound C R (fun i j v => cell a j i = some v)
    (fun m => m._columns_size) (fun m hm => hm.2.1)
    (fun i j res =>
      match rawRead a._matrix j i with
      | .error e => .error e
      | .ok x => writeCell res i j x) res hres ?_
  · obtain ⟨r, hr, hs, hc⟩ := h
    refine ⟨r, hr, hs, ?_⟩
    intro i j hi hj
    obtain ⟨v, hv, hx⟩ := hc i j hi hj
    exact ⟨v, hx, hv⟩
  · intro m i j hi hj hs _
    obtain ⟨x, hx⟩ := ha.cell_some hj hi
    obtain ⟨m', h1, h2, h3⟩ := writeCell_spec hs hi hj x
    refine ⟨m', x, ?_, hx, h2, h3⟩
    simp only [rawRead_of_cell hx]
    exact h1

/-- C3: for every initialised matrix `a` of shape `rows x columns`, zero rows or zero
columns included, `a.transpose()` returns normally an initialised matrix of shape
`columns x rows` with `r[i][j] = a[j][i]`; for `A = [[1,2],[3,4]]` it is `[[1,3],[2,4]]`,
and a `0 x 3` matrix is sent to a `3 x 0` matrix and back. -/
theorem C3_transpose_cellwise {T : Type} [Zero T] [Inhabited T]
    (a : matrix T) (ha : initialised a) :
    (∃ r, transpose a = .ok r ∧ initialised r ∧
        r.nr_of_rows = a.nr_of_columns ∧ r.nr_of_columns = a.nr_of_rows ∧
        ∀ i j, i < a.nr_of_columns → j < a.nr_of_rows →
          ∃ x, cell a j i = some x ∧ cell r i j = some x) ∧
    transpose scenario_A = .ok (of_rows 2 2 [[1, 3], [2, 4]]) ∧
    transpose (of_rows 0 3 ([] : List (List Int))) = .ok (of_rows 3 0 [[], [], []]) ∧
    transpose (of_rows 3 0 ([[], [], []] : List (List Int))) = .ok (of_rows 0 3 []) := by
  refine ⟨?_, rfl, rfl, rfl⟩
  obtain ⟨res, hres, hsres, _⟩ := ctor_spec (T := T) a._columns_size a._rows_size
  obtain ⟨r, hr, hs, hc⟩ := transpose_loop ha.shape hsres
  refine ⟨r, ?_, hs.initialised ha.2.1 ha.1, hs.1, hs.2.1, hc⟩
  simp only [transpose, ha.isNone, hres, hsres.1]
  simpa using hr

/-- C3 at the concrete scenario. -/
theorem C3_transpose_cellwise_witness :
    initialised scenario_A ∧
      ∃ r, transpose scenario_A = .ok r ∧ r.nr_of_rows = scenario_A.nr_of_columns :=
  have hA : initialised scenario_A := by decide
  ⟨hA, (C3_transpose_cellwise scenario_A hA).1.elim fun r hr => ⟨r, hr.1, hr.2.2.1⟩⟩

/-- The function `copy_matrix` on a destination and a source of the same shape returns
the destination with every cell replaced by the source cell. -/
theorem copy_matrix_spec {T : Type} {R C : Nat} {this a : matrix T}
    (hthis : hasShape R C this) (ha : hasShape R C a) :
    ∃ r, copy_matrix this a._matrix = .ok r ∧ hasShape R C r ∧
      ∀ i j, i < R → j < C → cell r i j = cell a i j := by
  have h := fill_loop R C (fun i j v => cell a i j = some v)
    (fun i j s =>
      match rawRead a._matrix i j with
      | .error e => .error e
      | .ok x => poke s i j x) this hthis ?_
  · obtain ⟨r, hr, hs, hc⟩ := h
    refine ⟨r, ?_, hs, ?_⟩
    · obtain ⟨h1, h2, d, hd, _⟩ := hasShape_iff.mp hthis
      simp only [copy_matrix, hd, h1, h2]
      simpa using hr
    · intro i j hi hj
      obtain ⟨v, hv, hx⟩ := hc i j hi hj
      rw [hv, hx]
  · intro m i j hi hj hs _
    obtain ⟨x, hx⟩ := ha.cell_some hi hj
    obtain ⟨m', h1, h2, h3⟩ := poke_spec hs hi hj x
    refine ⟨m', x, ?_, hx, h2, h3⟩
    simp only [rawRead_of_cell hx]
    exact h1

/-- The copy constructor returns a matrix of the shape and with the cells of its
argument. -/
theorem ctor_copy_spec {T : Type} [Zero T] [Inhabited T] {R C : Nat} {a : matrix T}
    (ha : hasShape R C a) :
    ∃ r, ctor_copy a = .ok r ∧ hasShape R C r ∧
      ∀ i j, i < R → j < C → cell r i j = cell a i j := by
  obtain ⟨res, hres, hsres, _⟩ := ctor_spec (T := T) R C
  obtain ⟨r, hr, hs, hc⟩ := copy_matrix_spec hsres ha
  refine ⟨r, ?_, hs, hc⟩
  simp only [ctor_copy, ctor_from, ha.1, ha.2.1, hres]
  exact hr

/-- The loops of `scalar`: every cell of the copy is multiplied by `s`. -/
theorem scalar_loop {T : Type} [Mul T] (s : T) {R C : Nat} {res : matrix T}
    (hres : hasShape R C res) :
    ∃ r, forRange R (fun i res =>
        forRange res._columns_size (fun j res =>
          match readCell res i j with
          | .error e => .error e
          | .ok c => writeCell res i j (c * s)) res) res = .ok r ∧
      hasShape R C r ∧
      ∀ i j, i < R → j < C → ∃ x, cell res i j = some x ∧ cell r i j = some (x * s) := by
  have h := fill_loop_bound R C (fun i j v => ∃ x, cell res i j = some x ∧ v = x * s)
    (fun m => m._columns_size) (fun m hm => hm.2.1)
    (fun i j res =>
      match readCell res i j with
      | .error e => .error e
      | .ok c => writeCell res i j (c * s)) res hres ?_
  · obtain ⟨r, hr, hs, hc⟩ := h
    refine ⟨r, hr, hs, ?_⟩
    intro i j hi hj
    obtain ⟨v, hv, x, hx, hxv⟩ := hc i j hi hj
    exact ⟨x, hx, by rw [hv, hxv]⟩
  · intro m i j hi hj hs hsame
    obtain ⟨x, hx⟩ := hres.cell_some hi hj
    obtain ⟨m', h1, h2, h3⟩ := writeCell_spec hs hi hj (x * s)
    refine ⟨m', x * s, ?_, ⟨x, hx, rfl⟩, h2, h3⟩
    simp only [readCell_of_cell hs hi (hsame.trans hx)]
    exact h1

/-- C4: for every initialised matrix `a` and scalar `s`, `a.scalar(s)` returns normally
an initialised matrix of the shape of `a` whose cell `(i, j)` is `a[i][j] * s`; hence
`a.scalar(1)` has the cells of `a`, every cell of `a.scalar(0)` is zero, and
`A.scalar(2) = [[2,4],[6,8]]` for `A = [[1,2],[3,4]]`.  The element type is one in which
`x * 1 = x` and `x * 0 = 0`. -/
theorem C4_scalar_cellwise {T : Type} [MulZeroOneClass T] [Inhabited T]
    (a : matrix T) (ha : initialised a) :
    (∀ s : T, ∃ r, scalar a s = .ok r ∧ initialised r ∧
        r.nr_of_rows = a.nr_of_rows ∧ r.nr_of_columns = a.nr_of_columns ∧
        ∀ i j, i < a.nr_of_rows → j < a.nr_of_columns →
          ∃ x, cell a i j = some x ∧ cell r i j = some (x * s)) ∧
    (∃ r, scalar a 1 = .ok r ∧ r.nr_of_rows = a.nr_of_rows ∧
        r.nr_of_columns = a.nr_of_columns ∧
        ∀ i j, i < a.nr_of_rows → j < a.nr_of_columns → cell r i j = cell a i j) ∧
    (∃ r, scalar a 0 = .ok r ∧ r.nr_of_rows = a.nr_of_rows ∧
        r.nr_of_columns = a.nr_of_columns ∧
        ∀ i j, i < a.nr_of_rows → j < a.nr_of_columns → cell r i j = some 0) ∧
    scalar scenario_A 2 = .ok (of_rows 2 2 [[2, 4], [6, 8]]) := by
  have key : ∀ s : T, ∃ r, scalar a s = .ok r ∧ initialised r ∧
      r.nr_of_rows = a.nr_of_rows ∧ r.nr_of_columns = a.nr_of_columns ∧
      ∀ i j, i < a.nr_of_rows → j < a.nr_of_columns →
        ∃ x, cell a i j = some x ∧ cell r i j = some (x * s) := by
    intro s
    obtain ⟨res, hres, hsres, hcres⟩ := ctor_copy_spec ha.shape
    obtain ⟨r, hr, hs, hc⟩ := scalar_loop s hsres
    refine ⟨r, ?_, hs.initialised ha.1 ha.2.1, hs.1, hs.2.1, ?_⟩
    · simp only [scalar, ha.isNone, hres, hsres.1]
      simpa using hr
    · intro i j hi hj
      obtain ⟨x, hx, hrx⟩ := hc i j hi hj
      exact ⟨x, by rw [← hcres i j hi hj, hx], hrx⟩
  refine ⟨key, ?_, ?_, rfl⟩
  · obtain ⟨r, hr, _, h1, h2, hc⟩ := key 1
    refine ⟨r, hr, h1, h2, ?_⟩
    intro i j hi hj
    obtain ⟨x, hx, hrx⟩ := hc i j hi hj
    rw [hrx, hx, mul_one]
  · obtain ⟨r, hr, _, h1, h2, hc⟩ := key 0
    refine ⟨r, hr, h1, h2, ?_⟩
    intro i j hi hj
    obtain ⟨x, _, hrx⟩ := hc i j hi hj
    rw [hrx, mul_zero]

/-- C4 at the concrete scenario. -/
theorem C4_scalar_cellwise_witness :
    initialised scenario_A ∧
      ∃ r, scalar scenario_A 2 = .ok r ∧ r.nr_of_rows = scenario_A.nr_of_rows :=
  have hA : initialised scenario_A := by decide
  ⟨hA, ((C4_scalar_cellwise scenario_A hA).1 2).elim fun r hr => ⟨r, hr.1, hr.2.2.1⟩⟩

/-- The inner loop of `sum` over row `i`, started at column `j`, adds the remaining
cells of the row to the accumulator from left to right. -/
theorem sum_row_loop {T : Type} [Add T] (d : List (List T)) (i : Nat) (hi : i < d.length) :
    ∀ (k j : Nat) (acc : T), j + k = (d[i]).length →
      forLoop (fun j acc =>
          match rawRead (some d) i j with
          | .error e => .error e
          | .ok x => .ok (acc + x)) k j acc
        = .ok (((d[i]).drop j).foldl (· + ·) acc) := by
  intro k
  induction k with
  | zero =>
    intro j acc hj
    have hd : (d[i]).drop j = [] := List.drop_of_length_le (by omega)
    simp [forLoop, hd]
  | succ k ih =>
    intro j acc hj
    have hj2 : j < (d[i]).length := by omega
    have hread : rawRead (some d) i j = .ok ((d[i])[j]) := by
      simp [rawRead, List.getElem?_eq_getElem hi, List.getElem?_eq_getElem hj2]
    have hdrop : (d[i]).drop j = (d[i])[j] :: (d[i]).drop (j + 1) :=
      List.drop_eq_getElem_cons hj2
    simp only [forLoop, hread, hdrop, List.foldl_cons]
    exact ih (j + 1) (acc + (d[i])[j]) (by omega)

/-- The outer loop of `sum`, started at row `i`, adds the cells of the remaining rows
to the accumulator in row-major order. -/
theorem sum_rows_loop {T : Type} [Add T] (d : List (List T)) (C : Nat)
    (hrow : ∀ r ∈ d, r.length = C) :
    ∀ (k i : Nat) (acc : T), i + k = d.length →
      forLoop (fun i acc =>
          forRange C (fun j acc =>
            match rawRead (some d) i j with
            | .error e => .error e
            | .ok x => .ok (acc + x)) acc) k i acc
        = .ok (((d.drop i).flatten).foldl (· + ·) acc) := by
  intro k
  induction k with
  | zero =>
    intro i acc hi
    have hd : d.drop i = [] := List.drop_of_length_le (by omega)
    simp [forLoop, hd]
  | succ k ih =>
    intro i acc hi
    have hi2 : i < d.length := by omega
    have hlen : (d[i]).length = C := hrow _ (List.getElem_mem hi2)
    have hinner := sum_row_loop d i hi2 C 0 acc (by omega)
    have hdrop : d.drop i = d[i] :: d.drop (i + 1) := List.drop_eq_getElem_cons hi2
    simp only [List.drop_zero] at hinner
    simp only [forLoop, forRange, hinner, hdrop, List.flatten_cons, List.foldl_append]
    exact ih (i + 1) _ (by omega)

/-- The function `sum` on an initialised matrix with storage `d` returns the left fold
of `+` over the concatenation of the rows. -/
theorem sum_eq_foldl {T : Type} [Zero T] [Add T] {a : matrix T} {d : List (List T)}
    (ha : initialised a) (hd : a._matrix = some d) :
    sum a = .ok (d.flatten.foldl (· + ·) 0) := by
  obtain ⟨_, _, d', hd', hlen, hrow⟩ := initialised_iff.mp ha
  have hdd : d' = d := by rw [hd] at hd'; exact (Option.some.inj hd').symm
  subst hdd
  have h := sum_rows_loop d' a._columns_size hrow a._rows_size 0 (0 : T) (by omega)
  simp only [List.drop_zero] at h
  simp only [sum, hd, forRange]
  simpa using h

/-- C5: for every initialised matrix `a`, `a.sum()` returns the left fold of `+`,
started from zero, over the cells in row-major order (the concatenation of the rows of
the storage); it is zero when the matrix has no cells and 10 for `A = [[1,2],[3,4]]`. -/
theorem C5_sum_row_major {T : Type} [Zero T] [Add T] (a : matrix T) (ha : initialised a) :
    (∃ d, a._matrix = some d ∧ sum a = .ok (d.flatten.foldl (· + ·) 0)) ∧
    (a.nr_of_rows = 0 ∨ a.nr_of_columns = 0 → sum a = .ok 0) ∧
    sum scenario_A = .ok 10 := by
  obtain ⟨d, hd, hlen, hrow⟩ := (initialised_iff.mp ha).2.2
  have hsum := sum_eq_foldl ha hd
  refine ⟨⟨d, hd, hsum⟩, ?_, rfl⟩
  intro h0
  have hnil : d.flatten = [] := by
    rw [List.flatten_eq_nil_iff]
    intro r hr
    rcases h0 with h | h
    · have hd0 : d = [] := List.length_eq_zero.mp (by rw [hlen]; exact h)
      rw [hd0] at hr
      exact absurd hr (List.not_mem_nil r)
    · exact List.length_eq_zero.mp (by rw [hrow r hr]; exact h)
  rw [hsum, hnil]
  rfl

/-- C5 at the concrete scenario. -/
theorem C5_sum_row_major_witness :
    initialised scenario_A ∧ sum scenario_A = .ok ((0 + 1 + 2 + 3 + 4 : Int)) :=
  have hA : initialised scenario_A := by decide
  ⟨hA, (C5_sum_row_major scenario_A hA).1.elim fun d hd => by
    have h : d = [[1, 2], [3, 4]] := (Option.some.inj hd.1).symm
    rw [hd.2, h]
    rfl⟩

/-- C1: evaluation of `operator*` at the concrete scenario.  For `A = [[1,2],[3,4]]` and
`B = [[5,6],[7,8]]` the inner loop runs for `inner < _rows_size - 1 = 1` only, so the
code returns `[[5,6],[15,18]]` and not the matrix product `[[19,22],[43,50]]`; for the
`1 x 2` row `[[1,2]]` times the `2 x 1` column `[[3],[4]]` the inner loop does not run at
all and the code returns `[[0]]` instead of `[[11]]`. -/
theorem C1_product_drops_terms :
    operator_mul scenario_A scenario_B = .ok (of_rows 2 2 [[5, 6], [15, 18]]) ∧
    (of_rows 2 2 [[5, 6], [15, 18]] : matrix Int) ≠ of_rows 2 2 [[19, 22], [43, 50]] ∧
    operator_mul (of_rows 1 2 [[(1 : Int), 2]]) (of_rows 2 1 [[3], [4]])
      = .ok (of_rows 1 1 [[0]]) :=
  ⟨rfl, by decide, rfl⟩

/-- C6: evaluation of `avg` at the concrete scenario with element type `int`.  The sum
of `A = [[1,2],[3,4]]` is 10 and there are 4 items; the code divides in integer
arithmetic and returns 2, which is not the exact quotient 10 / 4 = 2.5 (`2 * 4 ≠ 10`).
With the negative sum -10 the `int` is first converted to the unsigned `std::size_t`, and
the code returns `(2 ^ 64 - 10) / 4`. -/
theorem C6_avg_int_truncates :
    sum scenario_A = .ok 10 ∧
    avg int_div_size_t scenario_A = .ok 2 ∧
    2 * (scenario_A.nr_of_rows * scenario_A.nr_of_columns) ≠ 10 ∧
    avg int_div_size_t (of_rows 2 2 [[-1, -2], [-3, -4]]) = .ok 4611686018427387901 :=
  ⟨rfl, rfl, by decide, rfl⟩

/-- C7: for every initialised matrix `a` whose cells fit in the address space
(`rows * columns < 2 ^ 64`), `a.avg()` throws "Division by zero." if and only if `a` has
zero rows or zero columns, and returns a value when it has at least one cell; it throws
on the `0 x 0` matrix and returns 2 on the `2 x 2` matrix of `int` whose entries are
all 2. -/
theorem C7_avg_division_by_zero {T D : Type} [Zero T] [Add T] (divide : T → Nat → D)
    (a : matrix T) (ha : initialised a)
    (hfit : a._rows_size * a._columns_size < SIZE_MOD) :
    (avg divide a = .error .divisionByZero ↔ a.nr_of_rows = 0 ∨ a.nr_of_columns = 0) ∧
    (0 < a.nr_of_rows → 0 < a.nr_of_columns → ∃ v, avg divide a = .ok v) ∧
    avg int_div_size_t (of_rows 0 0 []) = .error .divisionByZero ∧
    avg int_div_size_t (of_rows 2 2 [[2, 2], [2, 2]]) = .ok 2 := by
  obtain ⟨d, hd, _, _⟩ := (initialised_iff.mp ha).2.2
  have hsum := sum_eq_foldl ha hd
  have hmod : a._rows_size * a._columns_size % SIZE_MOD = a._rows_size * a._columns_size :=
    Nat.mod_eq_of_lt hfit
  refine ⟨?_, ?_, rfl, rfl⟩
  · constructor
    · intro h
      by_cases h0 : a._rows_size * a._columns_size = 0
      · exact Nat.mul_eq_zero.mp h0
      · simp [avg, ha.isNone, hmod, h0, hsum] at h
    · intro h
      have h0 : a._rows_size * a._columns_size = 0 := Nat.mul_eq_zero.mpr h
      simp [avg, ha.isNone, hmod, h0]
  · intro hr hc
    have h0 : a._rows_size * a._columns_size ≠ 0 :=
      Nat.mul_ne_zero (Nat.pos_iff_ne_zero.mp hr) (Nat.pos_iff_ne_zero.mp hc)
    exact ⟨divide (d.flatten.foldl (· + ·) 0) (a._rows_size * a._columns_size),
      by simp [avg, ha.isNone, hmod, h0, hsum]⟩

/-- C7 at the `2 x 2` matrix of twos. -/
theorem C7_avg_division_by_zero_witness :
    initialised (of_rows 2 2 [[(2 : Int), 2], [2, 2]]) ∧ 2 * 2 < SIZE_MOD ∧
      ∃ v, avg int_div_size_t (of_rows 2 2 [[(2 : Int), 2], [2, 2]]) = .ok v :=
  have h : initialised (of_rows 2 2 [[(2 : Int), 2], [2, 2]]) := by decide
  ⟨h, by decide,
    (C7_avg_division_by_zero int_div_size_t _ h (by decide)).2.1 (by decide) (by decide)⟩

/-- A raw read fails only by undefined behaviour. -/
theorem rawRead_error {T : Type} {p : Option (List (List T))} {i j : Nat} {e : Error}
    (h : rawRead p i j = .error e) : e = .undefinedBehaviour := by
  unfold rawRead at h
  split at h
  · cases h; rfl
  · split at h
    · cases h; rfl
    · split at h
      · cases h; rfl
      · cases h

/-- The checked row access never throws a dimension error. -/
theorem operator_index_error {T : Type} {m : matrix T} {i : Nat} {e : Error}
    (h : operator_index m i = .error e) : e.isDimensionMismatch = false := by
  unfold operator_index at h
  split at h
  · cases h; rfl
  · split at h
    · cases h; rfl
    · split at h
      · cases h; rfl
      · cases h

/-- A raw store never throws a dimension error. -/
theorem poke_error {T : Type} {m : matrix T} {i j : Nat} {v : T} {e : Error}
    (h : poke m i j v = .error e) : e.isDimensionMismatch = false := by
  unfold poke at h
  split at h
  · cases h; rfl
  · split at h
    · cases h; rfl
    · split at h
      · rename_i e1 he1
        unfold rowWrite at he1
        split at he1
        · cases he1
        · cases he1; cases h; rfl
      · cases h

/-- The read `m[row][col]` never throws a dimension error. -/
theorem readCell_error {T : Type} {m : matrix T} {i j : Nat} {e : Error}
    (h : readCell m i j = .error e) : e.isDimensionMismatch = false := by
  unfold readCell at h
  split at h
  · rename_i e1 he1
    cases h
    exact operator_index_error he1
  · unfold rowRead at h
    split at h
    · cases h; rfl
    · cases h

/-- The store `m[row][col] = v` never throws a dimension error. -/
theorem writeCell_error {T : Type} {m : matrix T} {i j : Nat} {v : T} {e : Error}
    (h : writeCell m i j v = .error e) : e.isDimensionMismatch = false := by
  unfold writeCell at h
  split at h
  · rename_i e1 he1
    cases h
    exact operator_index_error he1
  · exact poke_error h

/-- One iteration of the innermost loop of `operator*` never throws a dimension error. -/
theorem mul_body_error {T : Type} [Add T] [Mul T] (a n : matrix T) (i j inner : Nat)
    (res : matrix T) (e : Error)
    (h : (match rawRead a._matrix i inner with
          | .error e => .error e
          | .ok x =>
            match rawRead n._matrix inner j with
            | .error e => .error e
            | .ok y =>
              match readCell res i j with
              | .error e => .error e
              | .ok c => writeCell res i j (c + x * y)) = Except.error e) :
    e.isDimensionMismatch = false := by
  split at h
  · rename_i e1 he1
    cases h
    rw [rawRead_error he1]; rfl
  · split at h
    · rename_i e1 he1
      cases h
      rw [rawRead_error he1]; rfl
    · split at h
      · rename_i e1 he1
        cases h
        exact readCell_error he1
      · exact writeCell_error h

/-- Past its own dimension check, `operator*` never throws a dimension error. -/
theorem operator_mul_error {T : Type} [Zero T] [Inhabited T] [Add T] [Mul T]
    (a n : matrix T) (ha : initialised a) (hdim : a._columns_size = n._rows_size)
    (e : Error) (h : operator_mul a n = .error e) : e.isDimensionMismatch = false := by
  obtain ⟨res, hres, _, _⟩ := ctor_spec (T := T) a._rows_size n._columns_size
  simp only [operator_mul, ha.isNone, hdim, hres] at h
  simp only [ne_eq, not_true_eq_false, if_false, Bool.false_eq_true] at h
  refine forRange_error (fun e => e.isDimensionMismatch = false) _ ?_ _ _ _ h
  intro i s1 e1 h1
  refine forRange_error (fun e => e.isDimensionMismatch = false) _ ?_ _ _ _ h1
  intro j s2 e2 h2
  refine forRange_error (fun e => e.isDimensionMismatch = false) _ ?_ _ _ _ h2
  intro inner s3 e3 h3
  exact mul_body_error a n i j inner s3 e3 h3

/-- C8: for initialised matrices `a` and `b`, `a + b` and `a - b` throw a dimension
error if and only if the row counts or the column counts differ, `a * b` throws a
dimension error if and only if `a.columns != b.rows`, and in each of these cases no
result matrix is returned. -/
theorem C8_dimension_mismatch {T : Type} [Zero T] [Inhabited T] [Add T] [Sub T] [Mul T]
    (a b : matrix T) (ha : initialised a) (hb : initialised b) :
    ((∃ e, operator_add a b = .error e ∧ e.isDimensionMismatch = true) ↔
        (a.nr_of_rows ≠ b.nr_of_rows ∨ a.nr_of_columns ≠ b.nr_of_columns)) ∧
    ((∃ e, operator_sub a b = .error e ∧ e.isDimensionMismatch = true) ↔
        (a.nr_of_rows ≠ b.nr_of_rows ∨ a.nr_of_columns ≠ b.nr_of_columns)) ∧
    ((∃ e, operator_mul a b = .error e ∧ e.isDimensionMismatch = true) ↔
        a.nr_of_columns ≠ b.nr_of_rows) ∧
    (a.nr_of_rows ≠ b.nr_of_rows ∨ a.nr_of_columns ≠ b.nr_of_columns →
        operator_add a b = .error .dimensionRowsColumns ∧
        operator_sub a b = .error .dimensionRowsColumns ∧
        ∀ r, operator_add a b ≠ .ok r ∧ operator_sub a b ≠ .ok r) ∧
    (a.nr_of_columns ≠ b.nr_of_rows →
        operator_mul a b = .error .dimensionInner ∧ ∀ r, operator_mul a b ≠ .ok r) := by
  have hadd : a._rows_size ≠ b._rows_size ∨ a._columns_size ≠ b._columns_size →
      operator_add a b = .error .dimensionRowsColumns := by
    intro h
    simp only [operator_add, ha.isNone, if_pos h]
    rfl
  have hsub : a._rows_size ≠ b._rows_size ∨ a._columns_size ≠ b._columns_size →
      operator_sub a b = .error .dimensionRowsColumns := by
    intro h
    simp only [operator_sub, ha.isNone, if_pos h]
    rfl
  have hmul : a._columns_size ≠ b._rows_size → operator_mul a b = .error .dimensionInner := by
    intro h
    simp only [operator_mul, ha.isNone, if_pos h]
    rfl
  have hsame : ¬ (a._rows_size ≠ b._rows_size ∨ a._columns_size ≠ b._columns_size) →
      a._rows_size = b._rows_size ∧ a._columns_size = b._columns_size := by
    intro h
    constructor
    · by_contra h1; exact h (Or.inl h1)
    · by_contra h1; exact h (Or.inr h1)
  refine ⟨⟨?_, fun h => ⟨_, hadd h, rfl⟩⟩, ⟨?_, fun h => ⟨_, hsub h, rfl⟩⟩,
    ⟨?_, fun h => ⟨_, hmul h, rfl⟩⟩, ?_, ?_⟩
  · rintro ⟨e, he, _⟩
    by_contra hne
    obtain ⟨h1, h2⟩ := hsame hne
    obtain ⟨⟨r, hr, _⟩, _⟩ := add_sub_spec a b ha hb h1 h2
    rw [hr] at he
    cases he
  · rintro ⟨e, he, _⟩
    by_contra hne
    obtain ⟨h1, h2⟩ := hsame hne
    obtain ⟨_, ⟨r, hr, _⟩⟩ := add_sub_spec a b ha hb h1 h2
    rw [hr] at he
    cases he
  · rintro ⟨e, he, hdimerr⟩
    by_contra hne
    have heq : a._columns_size = b._rows_size := hne
    rw [operator_mul_error a b ha heq e he] at hdimerr
    cases hdimerr
  · intro h
    refine ⟨hadd h, hsub h, fun r => ⟨?_, ?_⟩⟩
    · rw [hadd h]; intro h2; cases h2
    · rw [hsub h]; intro h2; cases h2
  · intro h
    refine ⟨hmul h, fun r => ?_⟩
    rw [hmul h]; intro h2; cases h2

/-- C8 at the concrete scenario: `A` and `B` are compatible for all three operations,
so none of them throws a dimension error. -/
theorem C8_dimension_mismatch_witness :
    initialised scenario_A ∧ initialised scenario_B ∧
      ¬ ∃ e, operator_mul scenario_A scenario_B = .error e ∧ e.isDimensionMismatch = true :=
  have hA : initialised scenario_A := by decide
  have hB : initialised scenario_B := by decide
  ⟨hA, hB, fun h =>
    (C8_dimension_mismatch scenario_A scenario_B hA hB).2.2.1.mp h rfl⟩

/-- C9, as stated, fails: on the initialised `2 x 2` matrix `A` the access `A[0][2]` has
`col == columns`, yet no "Index out of range!" is thrown: `operator[]` accepts row 0 and
returns the raw row buffer, and the index 2 into it is an unchecked read past its end. -/
theorem C9_column_not_checked :
    initialised scenario_A ∧ 2 ≥ scenario_A.nr_of_columns ∧
      readCell scenario_A 0 2 = .error .undefinedBehaviour ∧
      readCell scenario_A 0 2 ≠ .error .indexOutOfRange :=
  ⟨by decide, by decide, rfl, fun h => by cases h⟩

/-- C9, amended: for every initialised matrix `m` and indices `(row, col)`, the access
`m[row][col]` throws "Index out of range!" if and only if `row >= m.rows`, whatever `col`
is (so in particular at `row == rows`, and never because of `col`); `operator[]` itself
throws it under the same condition; and the access yields cell `(row, col)` when
`row < m.rows` and `col < m.columns`. -/
theorem C9_row_checked_access {T : Type} (m : matrix T) (hm : initialised m)
    (row col : Nat) :
    (readCell m row col = .error .indexOutOfRange ↔ row ≥ m.nr_of_rows) ∧
    (operator_index m row = .error .indexOutOfRange ↔ row ≥ m.nr_of_rows) ∧
    (readCell m m.nr_of_rows col = .error .indexOutOfRange) ∧
    (row < m.nr_of_rows → col < m.nr_of_columns →
        ∃ x, cell m row col = some x ∧ readCell m row col = .ok x) := by
  simp only [nr_of_rows, nr_of_columns]
  obtain ⟨d, hd, hlen, hrow⟩ := (initialised_iff.mp hm).2.2
  have hge : ∀ r, r ≥ m._rows_size → operator_index m r = .error .indexOutOfRange := by
    intro r hr
    simp [operator_index, hd, hr]
  have hlt : ∀ r, r < m._rows_size → ∃ l, operator_index m r = .ok l := by
    intro r hr
    have hr2 : r < d.length := by omega
    have hr3 : ¬ (r ≥ m._rows_size) := by omega
    exact ⟨d[r], by simp [operator_index, hd, hr3, List.getElem?_eq_getElem hr2]⟩
  have hidx : operator_index m row = .error .indexOutOfRange ↔ row ≥ m._rows_size := by
    constructor
    · intro h
      by_contra hne
      obtain ⟨l, hl⟩ := hlt row (by omega)
      rw [hl] at h
      cases h
    · exact hge row
  refine ⟨?_, hidx, ?_, ?_⟩
  · constructor
    · intro h
      by_contra hne
      obtain ⟨l, hl⟩ := hlt row (by omega)
      simp only [readCell, hl, rowRead] at h
      split at h
      · cases h
      · cases h
    · intro h
      simp only [readCell, hge row h]
  · simp only [readCell, hge m._rows_size (le_refl _)]
  · intro hr hc
    obtain ⟨x, hx⟩ := hm.shape.cell_some hr hc
    exact ⟨x, hx, readCell_of_cell hm.shape hr hx⟩

/-- C9 amended, at the concrete scenario: `A[2][0]` throws and `A[1][0]` is 3. -/
theorem C9_row_checked_access_witness :
    initialised scenario_A ∧ readCell scenario_A 2 0 = .error .indexOutOfRange ∧
      readCell scenario_A 1 0 = .ok 3 :=
  have hA : initialised scenario_A := by decide
  ⟨hA, (C9_row_checked_access scenario_A hA 2 0).1.mpr (by decide), rfl⟩

/-- C10: evaluation of self-assignment `a = a` for `a = A = [[1,2],[3,4]]` stored at
address 0.  `operator=` calls `clear()` before it compares `this` with `&mat`, so it
returns with the storage of `a` released: afterwards `nr_of_rows()` and
`nr_of_columns()` are 0, `_matrix` is `NULL`, and `a.sum()`, `a.transpose()` and `a[0]`
throw "Matrix not initialized.". -/
theorem C10_self_assignment_clears :
    ∃ s, operator_assign (fun _ => scenario_A) 0 0 = .ok s ∧
      s 0 = { _rows_size := 0, _columns_size := 0, _matrix := none } ∧
      (s 0).nr_of_rows = 0 ∧ (s 0).nr_of_columns = 0 ∧
      scenario_A.nr_of_rows = 2 ∧
      sum (s 0) = .error .notInitialized ∧
      transpose (s 0) = .error .notInitialized ∧
      operator_index (s 0) 0 = .error .notInitialized :=
  ⟨Function.update (fun _ => scenario_A) 0 (clear scenario_A),
    rfl, rfl, rfl, rfl, rfl, rfl, rfl, rfl⟩

/-! ## Value equality, construction, copy and assignment -/

/-- Two matrices of the same shape with the same cells are the same value. -/
theorem matrix_ext {T : Type} {R C : Nat} {m1 m2 : matrix T}
    (h1 : hasShape R C m1) (h2 : hasShape R C m2)
    (hc : ∀ i j, i < R → j < C → cell m1 i j = cell m2 i j) : m1 = m2 := by
  obtain ⟨hR1, hC1, d1, hd1, hlen1, hrow1⟩ := hasShape_iff.mp h1
  obtain ⟨hR2, hC2, d2, hd2, hlen2, hrow2⟩ := hasShape_iff.mp h2
  have hd : d1 = d2 := by
    apply List.ext_getElem (by omega)
    intro i hi1 hi2
    have hl1 : (d1[i]).length = C := hrow1 _ (List.getElem_mem hi1)
    have hl2 : (d2[i]).length = C := hrow2 _ (List.getElem_mem hi2)
    apply List.ext_getElem (by omega)
    intro j hj1 hj2
    have h := hc i j (by omega) (by omega)
    simp only [cell, hd1, hd2, List.getElem?_eq_getElem hi1, List.getElem?_eq_getElem hi2,
      List.getElem?_eq_getElem hj1, List.getElem?_eq_getElem hj2] at h
    exact Option.some.inj h
  cases m1
  cases m2
  simp only at hR1 hC1 hd1 hR2 hC2 hd2
  simp only [matrix.mk.injEq]
  exact ⟨by omega, by omega, by rw [hd1, hd2, hd]⟩

/-- The function `init` allocates storage of the shape given by the size members,
whatever the previous storage pointer was, and fills it with `T()`. -/
theorem init_spec {T : Type} [Zero T] [Inhabited T] (t : matrix T) :
    ∃ m : matrix T, init t = .ok m ∧ hasShape t._rows_size t._columns_size m ∧
      ∀ a b, a < t._rows_size → b < t._columns_size → cell m a b = some 0 := by
  have h := fill_loop t._rows_size t._columns_size (fun _ _ x => x = (0 : T))
    (fun i j s => poke s i j 0)
    ({ _rows_size := t._rows_size, _columns_size := t._columns_size,
       _matrix := some (List.replicate t._rows_size (List.replicate t._columns_size default)) } :
      matrix T)
    (hasShape_alloc _ _ default) ?_
  · obtain ⟨m, hm, hs, hc⟩ := h
    refine ⟨m, ?_, hs, ?_⟩
    · simpa [init] using hm
    · intro a b ha hb
      obtain ⟨x, hx, hx0⟩ := hc a b ha hb
      rw [hx, hx0]
  · intro m i j hi hj hs _
    obtain ⟨m', h1, h2, h3⟩ := poke_spec hs hi hj (0 : T)
    exact ⟨m', 0, h1, rfl, h2, h3⟩

/-- Copy construction from an initialised matrix returns an equal value. -/
theorem ctor_copy_eq {T : Type} [Zero T] [Inhabited T] {m : matrix T} (hm : initialised m) :
    ctor_copy m = .ok m := by
  obtain ⟨r, hr, hs, hc⟩ := ctor_copy_spec hm.shape
  rw [hr, matrix_ext hs hm.shape hc]

/-- Assignment of an initialised matrix to a distinct object stores an equal value in
the destination and leaves every other object alone. -/
theorem operator_assign_distinct {T : Type} [Zero T] [Inhabited T] (store : Nat → matrix T)
    (this mat : Nat) (hne : this ≠ mat) (hm : initialised (store mat)) :
    operator_assign store this mat = .ok (Function.update store this (store mat)) := by
  -- the store after the optional `clear()` still holds `m` at `mat`
  have key : ∀ store1 : Nat → matrix T, store1 mat = store mat →
      (∀ p, p ≠ this → store1 p = store p) →
      (match init ({ store1 this with
                      _rows_size := (store1 mat)._rows_size,
                      _columns_size := (store1 mat)._columns_size } : matrix T) with
        | .error e => .error e
        | .ok t1 =>
          match copy_matrix t1 (store1 mat)._matrix with
          | .error e => .error e
          | .ok t2 => .ok (Function.update store1 this t2))
        = Except.ok (Function.update store this (store mat)) := by
    intro store1 hmat hother
    obtain ⟨t1, ht1, hs1, _⟩ := init_spec ({ store1 this with
      _rows_size := (store1 mat)._rows_size,
      _columns_size := (store1 mat)._columns_size } : matrix T)
    simp only [hmat] at ht1 hs1 ⊢
    obtain ⟨t2, ht2, hs2, hc2⟩ := copy_matrix_spec hs1 hm.shape
    have heq : t2 = store mat := matrix_ext hs2 hm.shape hc2
    simp only [ht1, ht2, heq]
    congr 1
    funext p
    by_cases hp : p = this
    · subst hp; simp
    · simp [Function.update_noteq hp, hother p hp]
  unfold operator_assign
  simp only [if_neg hne]
  by_cases hsome : (store this)._matrix.isSome = true
  · simp only [hsome, if_true]
    exact key _ (by simp [Function.update_noteq (Ne.symm hne)])
      (fun p hp => by simp [Function.update_noteq hp])
  · simp only [hsome, if_false]
    exact key store rfl (fun _ _ => rfl)

/-- C11: for an initialised matrix `m` stored at address `mat`, copy construction from
`m` returns a matrix with the row count, column count and cells of `m` (an equal value),
and assigning `m` to any object `d` at a distinct address `this`, whatever the sizes,
storage and contents of `d` were, returns normally with `d` equal to `m` in row count,
column count and every cell, while `m` itself is unchanged. -/
theorem C11_copy_and_assign_deep_copy {T : Type} [Zero T] [Inhabited T]
    (store : Nat → matrix T) (this mat : Nat) (hne : this ≠ mat)
    (hm : initialised (store mat)) :
    (∃ r, ctor_copy (store mat) = .ok r ∧
        r.nr_of_rows = (store mat).nr_of_rows ∧
        r.nr_of_columns = (store mat).nr_of_columns ∧
        (∀ i j, i < (store mat).nr_of_rows → j < (store mat).nr_of_columns →
          cell r i j = cell (store mat) i j) ∧
        r = store mat) ∧
    (∃ s, operator_assign store this mat = .ok s ∧
        (s this).nr_of_rows = (store mat).nr_of_rows ∧
        (s this).nr_of_columns = (store mat).nr_of_columns ∧
        (∀ i j, i < (store mat).nr_of_rows → j < (store mat).nr_of_columns →
          cell (s this) i j = cell (store mat) i j) ∧
        s this = store mat ∧ s mat = store mat) ∧
    ctor_copy scenario_A = .ok scenario_A := by
  refine ⟨⟨store mat, ctor_copy_eq hm, rfl, rfl, fun _ _ _ _ => rfl, rfl⟩, ?_, rfl⟩
  refine ⟨Function.update store this (store mat),
    operator_assign_distinct store this mat hne hm, ?_, ?_, ?_, ?_, ?_⟩
  · simp
  · simp
  · intro i j _ _; simp
  · simp
  · simp [Function.update_noteq (Ne.symm hne)]

/-- C11 at the concrete scenario: `A` at address 1 is assigned to a `1 x 3` matrix at
address 0. -/
theorem C11_copy_and_assign_deep_copy_witness :
    (0 : Nat) ≠ 1 ∧ initialised scenario_A ∧
      ∃ s, operator_assign
          (fun p => if p = 0 then of_rows 1 3 [[9, 9, 9]] else scenario_A) 0 1 = .ok s ∧
        s 0 = scenario_A ∧ s 1 = scenario_A :=
  have hA : initialised scenario_A := by decide
  ⟨by decide, hA,
    (C11_copy_and_assign_deep_copy
      (fun p => if p = 0 then of_rows 1 3 [[9, 9, 9]] else scenario_A) 0 1 (by decide)
      hA).2.1.elim fun s hs => ⟨s, hs.1, hs.2.2.2.2.1, hs.2.2.2.2.2⟩⟩

/-- C12: for all sizes `rows` and `columns`, zero included, the constructor
`matrix(rows, columns)` returns a matrix with `nr_of_rows() = rows`,
`nr_of_columns() = columns`, storage of that shape, and every cell equal to `T()`. -/
theorem C12_ctor_zero_filled {T : Type} [Zero T] [Inhabited T] (rows columns : Nat) :
    (∃ m : matrix T, ctor rows columns = .ok m ∧
        m.nr_of_rows = rows ∧ m.nr_of_columns = columns ∧ hasShape rows columns m ∧
        ∀ i j, i < rows → j < columns → cell m i j = some 0) ∧
    (ctor 2 3 : Except Error (matrix Int)) = .ok (of_rows 2 3 [[0, 0, 0], [0, 0, 0]]) ∧
    (ctor 0 0 : Except Error (matrix Int)) = .ok (of_rows 0 0 []) ∧
    (ctor 0 4 : Except Error (matrix Int)) = .ok (of_rows 0 4 []) ∧
    (ctor 3 0 : Except Error (matrix Int)) = .ok (of_rows 3 0 [[], [], []]) := by
  refine ⟨?_, rfl, rfl, rfl, rfl⟩
  obtain ⟨m, hm, hs, hc⟩ := ctor_spec (T := T) rows columns
  exact ⟨m, hm, hs.1, hs.2.1, hs, hc⟩

/-- The function `transpose` on a matrix of shape `R x C` returns a matrix of shape
`C x R` whose cell `(i, j)` is cell `(j, i)` of the operand. -/
theorem transpose_spec {T : Type} [Zero T] [Inhabited T] {R C : Nat} {a : matrix T}
    (ha : hasShape R C a) :
    ∃ r, transpose a = .ok r ∧ hasShape C R r ∧
      ∀ i j, i < C → j < R → ∃ x, cell a j i = some x ∧ cell r i j = some x := by
  obtain ⟨res, hres, hsres, _⟩ := ctor_spec (T := T) C R
  obtain ⟨r, hr, hs, hc⟩ := transpose_loop ha hsres
  refine ⟨r, ?_, hs, hc⟩
  obtain ⟨hR, hC, d, hd, _⟩ := hasShape_iff.mp ha
  have hnone : a._matrix.isNone = false := by simp [hd]
  simp only [transpose, hnone, hR, hC, hres, hsres.1]
  simpa using hr

/-- Transposing twice returns the operand. -/
theorem transpose_transpose {T : Type} [Zero T] [Inhabited T] {R C : Nat} {a : matrix T}
    (ha : hasShape R C a) :
    ∃ t, transpose a = .ok t ∧ hasShape C R t ∧ transpose t = .ok a := by
  obtain ⟨t, ht, hst, hct⟩ := transpose_spec ha
  obtain ⟨r, hr, hsr, hcr⟩ := transpose_spec hst
  refine ⟨t, ht, hst, ?_⟩
  rw [hr]
  congr 1
  apply matrix_ext hsr ha
  intro i j hi hj
  obtain ⟨x, hx, hrx⟩ := hcr i j hi hj
  obtain ⟨y, hy, hty⟩ := hct j i hj hi
  rw [hrx, hy]
  rw [hty] at hx
  exact hx.symm

/-- C13: for every initialised matrix `a`, of any shape, `a.transpose().transpose()`
returns normally a matrix with the shape of `a` and the cells of `a`: the same value. -/
theorem C13_transpose_involutive {T : Type} [Zero T] [Inhabited T]
    (a : matrix T) (ha : initialised a) :
    (∃ t r, transpose a = .ok t ∧ transpose t = .ok r ∧
        r.nr_of_rows = a.nr_of_rows ∧ r.nr_of_columns = a.nr_of_columns ∧
        (∀ i j, i < a.nr_of_rows → j < a.nr_of_columns → cell r i j = cell a i j) ∧
        r = a) ∧
    transpose (of_rows 2 3 [[(1 : Int), 2, 3], [4, 5, 6]])
      = .ok (of_rows 3 2 [[1, 4], [2, 5], [3, 6]]) ∧
    transpose (of_rows 3 2 [[(1 : Int), 4], [2, 5], [3, 6]])
      = .ok (of_rows 2 3 [[1, 2, 3], [4, 5, 6]]) := by
  refine ⟨?_, rfl, rfl⟩
  obtain ⟨t, ht, _, hr⟩ := transpose_transpose ha.shape
  exact ⟨t, a, ht, hr, rfl, rfl, fun _ _ _ _ => rfl, rfl⟩

/-- C13 at the concrete scenario. -/
theorem C13_transpose_involutive_witness :
    initialised scenario_A ∧
      ∃ t, transpose scenario_A = .ok t ∧ transpose t = .ok scenario_A :=
  have hA : initialised scenario_A := by decide
  ⟨hA, (C13_transpose_involutive scenario_A hA).1.elim fun t ht =>
    ht.elim fun r hr => ⟨t, hr.1, by rw [hr.2.1, hr.2.2.2.2.2]⟩⟩

/-! ## Algebraic relations between the operations -/

/-- For an initialised `a` over a group, `(a + a) - a` returns `a`. -/
theorem add_self_sub_self {T : Type} [AddGroup T] [Inhabited T] {a : matrix T}
    (ha : initialised a) :
    ∃ s, operator_add a a = .ok s ∧ operator_sub s a = .ok a := by
  obtain ⟨s, hs, hsi, hsr, hsc, hscell⟩ := (add_sub_spec a a ha ha rfl rfl).1
  obtain ⟨r, hr, hri, hrr, hrc, hrcell⟩ := (add_sub_spec s a hsi ha hsr hsc).2
  refine ⟨s, hs, ?_⟩
  rw [hr]
  congr 1
  have hrs : hasShape a._rows_size a._columns_size r := by
    have h := hri.shape
    have h1 : r._rows_size = a._rows_size := hrr.trans hsr
    have h2 : r._columns_size = a._columns_size := hrc.trans hsc
    rwa [h1, h2] at h
  apply matrix_ext hrs ha.shape
  intro i j hi hj
  obtain ⟨x, y, hx, hy, hxy⟩ := hscell i j hi hj
  obtain ⟨u, v, hu, hv, huv⟩ := hrcell i j (by rw [hsr]; exact hi) (by rw [hsc]; exact hj)
  rw [hxy] at hu
  rw [hx] at hy hv
  have h1 : y = x := (Option.some.inj hy).symm
  have h2 : v = x := (Option.some.inj hv).symm
  have h3 : u = x + y := (Option.some.inj hu).symm
  rw [huv, hx, h3, h1, h2, add_sub_cancel_right]

/-- C14: for every initialised matrix `a` over an element type whose `+` and `-` form a
group (the integers, the integers modulo `2 ^ w`), `(a + a) - a` returns normally a
matrix with the shape of `a` and the cells of `a`: the same value. -/
theorem C14_add_self_sub_self {T : Type} [AddGroup T] [Inhabited T]
    (a : matrix T) (ha : initialised a) :
    (∃ s r, operator_add a a = .ok s ∧ operator_sub s a = .ok r ∧
        r.nr_of_rows = a.nr_of_rows ∧ r.nr_of_columns = a.nr_of_columns ∧
        (∀ i j, i < a.nr_of_rows → j < a.nr_of_columns → cell r i j = cell a i j) ∧
        r = a) ∧
    operator_add scenario_A scenario_A = .ok (of_rows 2 2 [[2, 4], [6, 8]]) ∧
    operator_sub (of_rows 2 2 [[2, 4], [6, 8]]) scenario_A = .ok scenario_A := by
  refine ⟨?_, rfl, rfl⟩
  obtain ⟨s, hs, hr⟩ := add_self_sub_self ha
  exact ⟨s, a, hs, hr, rfl, rfl, fun _ _ _ _ => rfl, rfl⟩

/-- C14 at the concrete scenario. -/
theorem C14_add_self_sub_self_witness :
    initialised scenario_A ∧
      ∃ s, operator_add scenario_A scenario_A = .ok s ∧ operator_sub s scenario_A = .ok scenario_A :=
  have hA : initialised scenario_A := by decide
  ⟨hA, (C14_add_self_sub_self scenario_A hA).1.elim fun s hs =>
    hs.elim fun r hr => ⟨s, hr.1, by rw [hr.2.1, hr.2.2.2.2.2]⟩⟩

/-- On initialised operands of the same shape, transposing the sum and adding the
transposes return the same matrix. -/
theorem transpose_add {T : Type} [Zero T] [Inhabited T] [Add T] [Sub T] {a b : matrix T}
    (ha : initialised a) (hb : initialised b)
    (hrows : a._rows_size = b._rows_size) (hcols : a._columns_size = b._columns_size) :
    ∃ s r ta tb, operator_add a b = .ok s ∧ transpose s = .ok r ∧
      transpose a = .ok ta ∧ transpose b = .ok tb ∧ operator_add ta tb = .ok r ∧
      hasShape a._columns_size a._rows_size r := by
  obtain ⟨s, hs, hsi, hsr, hsc, hscell⟩ := (add_sub_spec a b ha hb hrows hcols).1
  have hss : hasShape a._rows_size a._columns_size s := by
    have h := hsi.shape
    have h1 : s._rows_size = a._rows_size := hsr
    have h2 : s._columns_size = a._columns_size := hsc
    rwa [h1, h2] at h
  have hsb : hasShape a._rows_size a._columns_size b := by
    have h := hb.shape
    rwa [← hrows, ← hcols] at h
  obtain ⟨r, hr, hrs, hrcell⟩ := transpose_spec hss
  obtain ⟨ta, hta, htas, htacell⟩ := transpose_spec ha.shape
  obtain ⟨tb, htb, htbs, htbcell⟩ := transpose_spec hsb
  have htai : initialised ta := htas.initialised ha.2.1 ha.1
  have htbi : initialised tb := htbs.initialised ha.2.1 ha.1
  obtain ⟨r2, hr2, hr2i, hr2r, hr2c, hr2cell⟩ :=
    (add_sub_spec ta tb htai htbi (htas.1.trans htbs.1.symm)
      (htas.2.1.trans htbs.2.1.symm)).1
  have hr2s : hasShape a._columns_size a._rows_size r2 := by
    have h := hr2i.shape
    have h1 : r2._rows_size = a._columns_size := hr2r.trans htas.1
    have h2 : r2._columns_size = a._rows_size := hr2c.trans htas.2.1
    rwa [h1, h2] at h
  refine ⟨s, r, ta, tb, hs, hr, hta, htb, ?_, hrs⟩
  rw [hr2]
  congr 1
  apply matrix_ext hr2s hrs
  intro i j hi hj
  obtain ⟨x, y, hx, hy, hxy⟩ :=
    hr2cell i j (by rw [nr_of_rows, htas.1]; exact hi) (by rw [nr_of_columns, htas.2.1]; exact hj)
  obtain ⟨u, hu, hru⟩ := hrcell i j hi hj
  obtain ⟨xa, hxa, htxa⟩ := htacell i j hi hj
  obtain ⟨xb, hxb, htxb⟩ := htbcell i j hi hj
  obtain ⟨p, q, hp, hq, hpq⟩ := hscell j i hj hi
  rw [hxy, hru]
  rw [htxa] at hx
  rw [htxb] at hy
  rw [hxa] at hp
  rw [hxb] at hq
  rw [hpq] at hu
  have e1 : x = xa := (Option.some.inj hx).symm
  have e2 : y = xb := (Option.some.inj hy).symm
  have e3 : p = xa := (Option.some.inj hp).symm
  have e4 : q = xb := (Option.some.inj hq).symm
  have e5 : u = p + q := (Option.some.inj hu).symm
  rw [e1, e2, e5, e3, e4]

/-- C15: for initialised matrices `a` and `b` of the same shape, `(a + b).transpose()`
and `a.transpose() + b.transpose()` both return normally, and they return the same
matrix: same shape `columns x rows` and the same value in every cell. -/
theorem C15_transpose_add {T : Type} [Zero T] [Inhabited T] [Add T] [Sub T]
    (a b : matrix T) (ha : initialised a) (hb : initialised b)
    (hrows : a.nr_of_rows = b.nr_of_rows) (hcols : a.nr_of_columns = b.nr_of_columns) :
    (∃ s r1 ta tb r2, operator_add a b = .ok s ∧ transpose s = .ok r1 ∧
        transpose a = .ok ta ∧ transpose b = .ok tb ∧ operator_add ta tb = .ok r2 ∧
        r1.nr_of_rows = a.nr_of_columns ∧ r1.nr_of_columns = a.nr_of_rows ∧
        r2.nr_of_rows = r1.nr_of_rows ∧ r2.nr_of_columns = r1.nr_of_columns ∧
        (∀ i j, i < r1.nr_of_rows → j < r1.nr_of_columns → cell r1 i j = cell r2 i j) ∧
        r1 = r2) ∧
    transpose (of_rows 2 2 [[(6 : Int), 8], [10, 12]]) = .ok (of_rows 2 2 [[6, 10], [8, 12]]) ∧
    operator_add (of_rows 2 2 [[(1 : Int), 3], [2, 4]]) (of_rows 2 2 [[5, 7], [6, 8]])
      = .ok (of_rows 2 2 [[6, 10], [8, 12]]) := by
  refine ⟨?_, rfl, rfl⟩
  obtain ⟨s, r, ta, tb, hs, hr, hta, htb, hr2, hshape⟩ := transpose_add ha hb hrows hcols
  exact ⟨s, r, ta, tb, r, hs, hr, hta, htb, hr2, hshape.1, hshape.2.1, rfl, rfl,
    fun _ _ _ _ => rfl, rfl⟩

/-- C15 at the concrete scenario. -/
theorem C15_transpose_add_witness :
    initialised scenario_A ∧ initialised scenario_B ∧
      ∃ s r, operator_add scenario_A scenario_B = .ok s ∧ transpose s = .ok r ∧
        r.nr_of_rows = scenario_A.nr_of_columns := by
  have hA : initialised scenario_A := by decide
  have hB : initialised scenario_B := by decide
  obtain ⟨⟨s, r1, _, _, _, hs, hr, _, _, _, hrows, _⟩, _⟩ :=
    C15_transpose_add scenario_A scenario_B hA hB rfl rfl
  exact ⟨hA, hB, s, r1, hs, hr, hrows⟩

/-! ## The product loop -/

theorem entry_of_cell {T : Type} [Zero T] {m : matrix T} {i j : Nat} {x : T}
    (h : cell m i j = some x) : entry m i j = x := by
  simp [entry, h]

/-- The innermost loop of `operator*`, run for `K` iterations that stay inside both
operands, adds the first `K` terms of the dot product to cell `(i, j)` of the result, in
order, and changes no other cell. -/
theorem mul_inner_loop {T : Type} [Zero T] [Add T] [Mul T] {R C P : Nat} {a b : matrix T}
    (ha : hasShape R C a) (hb : hasShape C P b) {i j : Nat} (hi : i < R) (hj : j < P)
    (K : Nat) (hK : K ≤ C) (res : matrix T) (c0 : T) (hres : hasShape R P res)
    (hc0 : cell res i j = some c0) :
    ∃ r, forRange K (fun inner res =>
          match rawRead a._matrix i inner with
          | .error e => .error e
          | .ok x =>
            match rawRead b._matrix inner j with
            | .error e => .error e
            | .ok y =>
              match readCell res i j with
              | .error e => .error e
              | .ok c => writeCell res i j (c + x * y)) res = .ok r ∧
      hasShape R P r ∧
      cell r i j
        = some ((List.range K).foldl (fun acc k => acc + entry a i k * entry b k j) c0) ∧
      ∀ x y, ¬ (x = i ∧ y = j) → cell r x y = cell res x y := by
  have h := forRange_inv
    (fun k s => hasShape R P s ∧
      cell s i j
        = some ((List.range k).foldl (fun acc k => acc + entry a i k * entry b k j) c0) ∧
      ∀ x y, ¬ (x = i ∧ y = j) → cell s x y = cell res x y)
    (fun inner res =>
      match rawRead a._matrix i inner with
      | .error e => .error e
      | .ok x =>
        match rawRead b._matrix inner j with
        | .error e => .error e
        | .ok y =>
          match readCell res i j with
          | .error e => .error e
          | .ok c => writeCell res i j (c + x * y)) K res
    ⟨hres, by simpa using hc0, fun _ _ _ => rfl⟩ ?_
  · exact h
  · intro k s hk hP
    obtain ⟨hs, hcell, hother⟩ := hP
    obtain ⟨x, hx⟩ := ha.cell_some hi (show k < C by omega)
    obtain ⟨y, hy⟩ := hb.cell_some (show k < C by omega) hj
    obtain ⟨s', h1, h2, h3⟩ := writeCell_spec hs hi hj
      ((List.range k).foldl (fun acc k => acc + entry a i k * entry b k j) c0 + x * y)
    refine ⟨s', ?_, h2, ?_, ?_⟩
    · simp only [rawRead_of_cell hx, rawRead_of_cell hy, readCell_of_cell hs hi hcell]
      exact h1
    · rw [h3 i j, if_pos ⟨rfl, rfl⟩, List.range_succ, List.foldl_append]
      simp [entry_of_cell hx, entry_of_cell hy]
    · intro u v huv
      rw [h3 u v, if_neg huv]
      exact hother u v huv

/-- The inner bound `_rows_size - 1` of `operator*`, computed in `std::size_t`. -/
theorem mul_inner_bound {R : Nat} (h1 : 1 ≤ R) (h2 : R < SIZE_MOD) :
    (R + SIZE_MOD - 1) % SIZE_MOD = R - 1 := by
  have h : R + SIZE_MOD - 1 = (R - 1) + SIZE_MOD := by omega
  rw [h, Nat.add_mod_right, Nat.mod_eq_of_lt (by omega)]

/-- When the inner loop stays inside the operands (`R = 0`, `P = 0` or `R <= C + 1`),
`operator*` on operands of shapes `R x C` and `C x P` returns a matrix of shape `R x P`
whose cell `(i, j)` accumulates the first `R - 1` terms of the dot product. -/
theorem mul_spec {T : Type} [Zero T] [Inhabited T] [Add T] [Mul T] {R C P : Nat}
    {a b : matrix T} (ha : hasShape R C a) (hb : hasShape C P b) (hR : R < SIZE_MOD)
    (hcond : R = 0 ∨ P = 0 ∨ R ≤ C + 1) :
    ∃ r, operator_mul a b = .ok r ∧ hasShape R P r ∧
      ∀ i j, i < R → j < P → cell r i j = some (dot_upto a b i j (R - 1)) := by
  obtain ⟨res, hres, hsres, hzero⟩ := ctor_spec (T := T) R P
  have h := fill_loop R P (fun i j v => v = dot_upto a b i j (R - 1))
    (fun i j res =>
      forRange ((R + SIZE_MOD - 1) % SIZE_MOD) (fun inner res =>
        match rawRead a._matrix i inner with
        | .error e => .error e
        | .ok x =>
          match rawRead b._matrix inner j with
          | .error e => .error e
          | .ok y =>
            match readCell res i j with
            | .error e => .error e
            | .ok c => writeCell res i j (c + x * y)) res) res hsres ?_
  · obtain ⟨r, hr, hs, hc⟩ := h
    refine ⟨r, ?_, hs, ?_⟩
    · obtain ⟨hRa, hCa, d, hd, _⟩ := hasShape_iff.mp ha
      have hnone : a._matrix.isNone = false := by simp [hd]
      have hdim : ¬ (a._columns_size ≠ b._rows_size) := by rw [hCa, hb.1]; simp
      simp only [operator_mul, hnone, hdim, hRa, hb.2.1, hres]
      simpa using hr
    · intro i j hi hj
      obtain ⟨v, hv, hvd⟩ := hc i j hi hj
      rw [hv, hvd]
  · intro m i j hi hj hs hsame
    have hbound : (R + SIZE_MOD - 1) % SIZE_MOD = R - 1 := mul_inner_bound (by omega) hR
    have hK : R - 1 ≤ C := by omega
    have hc0 : cell m i j = some 0 := by rw [hsame]; exact hzero i j hi hj
    obtain ⟨r, hr, hrs, hrc, hro⟩ := mul_inner_loop ha hb hi hj (R - 1) hK m 0 hs hc0
    refine ⟨r, dot_upto a b i j (R - 1), ?_, rfl, hrs, ?_⟩
    · rw [hbound]; exact hr
    · intro u v
      by_cases huv : u = i ∧ v = j
      · rw [if_pos huv, huv.1, huv.2, hrc]; rfl
      · rw [if_neg huv]; exact hro u v huv

/-- The left-to-right accumulation from zero over `k < K` is the sum over `k < K`. -/
theorem foldl_range_eq_sum {T : Type} [AddCommMonoid T] (f : Nat → T) (K : Nat) :
    (List.range K).foldl (fun acc k => acc + f k) 0 = Finset.sum (Finset.range K) f := by
  induction K with
  | zero => simp
  | succ K ih =>
    rw [List.range_succ, List.foldl_append, ih, Finset.sum_range_succ]
    simp

theorem dot_upto_eq_sum {T : Type} [Ring T] (a b : matrix T) (i j K : Nat) :
    dot_upto a b i j K = Finset.sum (Finset.range K) (fun k => entry a i k * entry b k j) :=
  foldl_range_eq_sum (fun k => entry a i k * entry b k j) K

/-- C18: in the square case the product drops exactly the last term.  For every
`n >= 1`, every initialised `n x n` matrix `a` and every initialised `n x p` matrix `b`
over a ring, `a * b` returns a matrix of shape `n x p` whose cell `(i, j)` is the sum
over `k = 0 .. n-2` of `a[i][k] * b[k][j]`, which is the standard product entry (the sum
over `k = 0 .. n-1`) minus `a[i][n-1] * b[n-1][j]`. -/
theorem C18_square_product_drops_last_term {T : Type} [Ring T] [Inhabited T]
    (a b : matrix T) (n p : Nat) (hn : 1 ≤ n) (ha : initialised a) (hb : initialised b)
    (har : a.nr_of_rows = n) (hac : a.nr_of_columns = n)
    (hbr : b.nr_of_rows = n) (hbc : b.nr_of_columns = p) :
    (∃ r, operator_mul a b = .ok r ∧ r.nr_of_rows = n ∧ r.nr_of_columns = p ∧
        ∀ i j, i < n → j < p →
          cell r i j
            = some (Finset.sum (Finset.range (n - 1)) (fun k => entry a i k * entry b k j)) ∧
          Finset.sum (Finset.range (n - 1)) (fun k => entry a i k * entry b k j)
            = Finset.sum (Finset.range n) (fun k => entry a i k * entry b k j)
                - entry a i (n - 1) * entry b (n - 1) j) ∧
    operator_mul (of_rows 3 3 [[(1 : Int), 2, 3], [4, 5, 6], [7, 8, 9]])
        (of_rows 3 2 [[1, 2], [3, 4], [5, 6]])
      = .ok (of_rows 3 2 [[7, 10], [19, 28], [31, 46]]) := by
  refine ⟨?_, rfl⟩
  simp only [nr_of_rows, nr_of_columns] at har hac hbr hbc
  have hsa : hasShape n n a := by
    have h := ha.shape
    rwa [har, hac] at h
  have hsb : hasShape n p b := by
    have h := hb.shape
    rwa [hbr, hbc] at h
  have hnlt : n < SIZE_MOD := by rw [← har]; exact ha.1
  obtain ⟨r, hr, hs, hc⟩ := mul_spec hsa hsb hnlt (Or.inr (Or.inr (by omega)))
  refine ⟨r, hr, hs.1, hs.2.1, ?_⟩
  intro i j hi hj
  refine ⟨?_, ?_⟩
  · rw [hc i j hi hj, dot_upto_eq_sum]
  · obtain ⟨m, rfl⟩ : ∃ m, n = m + 1 := ⟨n - 1, by omega⟩
    rw [Finset.sum_range_succ]
    simp

/-- C18 at the concrete scenario: `A * B` has the cells `a[i][0] * b[0][j]`. -/
theorem C18_square_product_drops_last_term_witness :
    (1 ≤ 2) ∧ initialised scenario_A ∧ initialised scenario_B ∧
      ∃ r, operator_mul scenario_A scenario_B = .ok r ∧
        cell r 1 1 = some (Finset.sum (Finset.range (2 - 1))
          (fun k => entry scenario_A 1 k * entry scenario_B k 1)) := by
  have hA : initialised scenario_A := by decide
  have hB : initialised scenario_B := by decide
  obtain ⟨⟨r, hr, _, _, hc⟩, _⟩ :=
    C18_square_product_drops_last_term scenario_A scenario_B 2 2 (by decide) hA hB
      rfl rfl rfl rfl
  exact ⟨by decide, hA, hB, r, hr, (hc 1 1 (by decide) (by decide)).1⟩

/-- A loop whose iterations below `t0` return normally and keep an invariant, and whose
iteration `t0` fails under that invariant, fails in the same way. -/
theorem forLoop_fail {σ : Type} (P : Nat → σ → Prop) (body : Nat → σ → Except Error σ)
    (e : Error) (t0 : Nat)
    (hstep : ∀ t s, t < t0 → P t s → ∃ s', body t s = .ok s' ∧ P (t + 1) s')
    (hfail : ∀ s, P t0 s → body t0 s = .error e) :
    ∀ (k i : Nat) (s : σ), i ≤ t0 → t0 < i + k → P i s →
      forLoop body k i s = .error e := by
  intro k
  induction k with
  | zero => intro i s h1 h2 _; omega
  | succ k ih =>
    intro i s h1 h2 hP
    by_cases hit : i = t0
    · subst hit
      simp only [forLoop, hfail s hP]
    · obtain ⟨s', hs', hP'⟩ := hstep i s (by omega) hP
      simp only [forLoop, hs']
      exact ih (i + 1) s' (by omega) (by omega) hP'

/-- The failure rule for `for (i = 0; i < n; i++)`. -/
theorem forRange_fail {σ : Type} (P : Nat → σ → Prop) (body : Nat → σ → Except Error σ)
    (e : Error) (n t0 : Nat) (ht0 : t0 < n) (s : σ) (h0 : P 0 s)
    (hstep : ∀ t s, t < t0 → P t s → ∃ s', body t s = .ok s' ∧ P (t + 1) s')
    (hfail : ∀ s, P t0 s → body t0 s = .error e) :
    forRange n body s = .error e :=
  forLoop_fail P body e t0 hstep hfail n 0 s (Nat.zero_le _) (by omega) h0

/-- A raw read at a column index at or beyond the row length is outside the storage. -/
theorem rawRead_col_out {T : Type} {R C : Nat} {a : matrix T} (ha : hasShape R C a)
    {i j : Nat} (hi : i < R) (hj : C ≤ j) :
    rawRead a._matrix i j = .error .undefinedBehaviour := by
  obtain ⟨_, _, d, hd, hlen, hrow⟩ := hasShape_iff.mp ha
  have hi2 : i < d.length := by omega
  have hr : (d[i]).length = C := hrow _ (List.getElem_mem hi2)
  have hnone : (d[i])[j]? = none := List.getElem?_eq_none (by omega)
  simp [rawRead, hd, List.getElem?_eq_getElem hi2, hnone]

/-- A raw read at a row index at or beyond the row count is outside the storage. -/
theorem rawRead_row_out {T : Type} {R C : Nat} {a : matrix T} (ha : hasShape R C a)
    {i j : Nat} (hi : R ≤ i) :
    rawRead a._matrix i j = .error .undefinedBehaviour := by
  obtain ⟨_, _, d, hd, hlen, hrow⟩ := hasShape_iff.mp ha
  have hnone : d[i]? = none := List.getElem?_eq_none (by omega)
  simp [rawRead, hd, hnone]

/-- When the result has at least one cell and `R - 1 > C`, the inner loop of `operator*`
runs past the shared dimension: in the first cell, after `C` iterations inside the
operands, iteration `k = C` reads `a[0][C]` outside row 0 of `a`. -/
theorem mul_out_of_bounds {T : Type} [Zero T] [Inhabited T] [Add T] [Mul T] {R C P : Nat}
    {a b : matrix T} (ha : hasShape R C a) (hb : hasShape C P b) (hR : R < SIZE_MOD)
    (hP : 1 ≤ P) (hRC : C + 1 < R) :
    operator_mul a b = .error .undefinedBehaviour := by
  obtain ⟨res, hres, hsres, _⟩ := ctor_spec (T := T) R P
  obtain ⟨hRa, hCa, d, hd, _⟩ := hasShape_iff.mp ha
  have hnone : a._matrix.isNone = false := by simp [hd]
  have hdim : ¬ (a._columns_size ≠ b._rows_size) := by rw [hCa, hb.1]; simp
  have hbound : (R + SIZE_MOD - 1) % SIZE_MOD = R - 1 := mul_inner_bound (by omega) hR
  simp only [operator_mul, hnone, hdim, hRa, hb.2.1, hres, hbound]
  simp only [if_false, Bool.false_eq_true]
  -- the first iteration of the outer loop fails
  refine forRange_fail (fun _ s => hasShape R P s) _ _ R 0 (by omega) res hsres
    (fun t s ht _ => absurd ht (Nat.not_lt_zero t)) ?_
  intro s1 hs1
  -- the first iteration of the middle loop fails
  refine forRange_fail (fun _ s => hasShape R P s) _ _ P 0 (by omega) s1 hs1
    (fun t s ht _ => absurd ht (Nat.not_lt_zero t)) ?_
  intro s2 hs2
  -- the inner loop fails at iteration `C`
  refine forRange_fail (fun _ s => hasShape R P s) _ _ (R - 1) C (by omega) s2 hs2 ?_ ?_
  · intro k s hk hs
    obtain ⟨x, hx⟩ := ha.cell_some (show 0 < R by omega) hk
    obtain ⟨y, hy⟩ := hb.cell_some hk (show 0 < P by omega)
    obtain ⟨c, hc⟩ := hs.cell_some (show 0 < R by omega) (show 0 < P by omega)
    obtain ⟨s', h1, h2, _⟩ := writeCell_spec hs (show 0 < R by omega) (show 0 < P by omega)
      (c + x * y)
    refine ⟨s', ?_, h2⟩
    simp only [rawRead_of_cell hx, rawRead_of_cell hy,
      readCell_of_cell hs (show 0 < R by omega) hc]
    exact h1
  · intro s _
    simp only [rawRead_col_out ha (show 0 < R by omega) (le_refl C)]

/-- C20: for initialised matrices `a` and `b` with `a.columns == b.rows`, every element
that `operator*` reads from `a` and from `b` lies inside the operand (the call returns
a matrix, no access outside storage occurs) if and only if `a.rows == 0` or
`b.columns == 0` or `a.rows <= a.columns + 1`.  Outside that condition the inner loop,
whose bound is `a.rows - 1`, reaches `k = a.columns`, and there `a[0][k]` is a read with
`k >= a.columns` and `b[k][0]` a read with `k >= b.rows`, both outside the operand; the
call ends in that out-of-bounds access. -/
theorem C20_product_reads_in_bounds {T : Type} [Zero T] [Inhabited T] [Add T] [Mul T]
    (a b : matrix T) (ha : initialised a) (hb : initialised b)
    (hdim : a.nr_of_columns = b.nr_of_rows) :
    ((∃ r, operator_mul a b = .ok r) ↔
        (a.nr_of_rows = 0 ∨ b.nr_of_columns = 0 ∨ a.nr_of_rows ≤ a.nr_of_columns + 1)) ∧
    (¬ (a.nr_of_rows = 0 ∨ b.nr_of_columns = 0 ∨ a.nr_of_rows ≤ a.nr_of_columns + 1) →
        operator_mul a b = .error .undefinedBehaviour ∧
        ∃ k, k < (a.nr_of_rows + SIZE_MOD - 1) % SIZE_MOD ∧
          k ≥ a.nr_of_columns ∧ k ≥ b.nr_of_rows ∧
          rawRead a._matrix 0 k = .error .undefinedBehaviour ∧
          rawRead b._matrix k 0 = .error .undefinedBehaviour) := by
  simp only [nr_of_rows, nr_of_columns] at hdim ⊢
  have hsa := ha.shape
  have hsb : hasShape a._columns_size b._columns_size b := by
    have h := hb.shape
    rwa [← hdim] at h
  have hbad : ¬ (a._rows_size = 0 ∨ b._columns_size = 0 ∨
      a._rows_size ≤ a._columns_size + 1) →
      operator_mul a b = .error .undefinedBehaviour := by
    intro hn
    exact mul_out_of_bounds hsa hsb ha.1 (by omega) (by omega)
  refine ⟨⟨?_, ?_⟩, ?_⟩
  · rintro ⟨r, hr⟩
    by_contra hn
    rw [hbad hn] at hr
    cases hr
  · intro hcond
    obtain ⟨r, hr, _⟩ := mul_spec hsa hsb ha.1 hcond
    exact ⟨r, hr⟩
  · intro hn
    refine ⟨hbad hn, a._columns_size, ?_, le_refl _, by omega, ?_, ?_⟩
    · rw [mul_inner_bound (by omega) ha.1]; omega
    · exact rawRead_col_out hsa (by omega) (le_refl _)
    · exact rawRead_row_out hsb (le_refl _)

/-- C20 at concrete inputs: the `3 x 1` column `[[1],[2],[3]]` times the `1 x 1` matrix
`[[1]]` has `a.rows = 3 > a.columns + 1 = 2` and ends in an out-of-bounds read. -/
theorem C20_product_reads_in_bounds_witness :
    initialised (of_rows 3 1 [[(1 : Int)], [2], [3]]) ∧ initialised (of_rows 1 1 [[(1 : Int)]]) ∧
      operator_mul (of_rows 3 1 [[(1 : Int)], [2], [3]]) (of_rows 1 1 [[1]])
        = .error .undefinedBehaviour := by
  have hA : initialised (of_rows 3 1 [[(1 : Int)], [2], [3]]) := by decide
  have hB : initialised (of_rows 1 1 [[(1 : Int)]]) := by decide
  exact ⟨hA, hB, ((C20_product_reads_in_bounds _ _ hA hB rfl).2 (by decide)).1⟩

/-! ## Comparison with the standard product -/

theorem hasShape_spec_product {T : Type} [Zero T] [Add T] [Mul T] (a b : matrix T) :
    hasShape a._rows_size b._columns_size (spec_product a b) := by
  refine hasShape_iff.mpr ⟨rfl, rfl, _, rfl, by simp, ?_⟩
  intro r hr
  simp only [List.mem_map] at hr
  obtain ⟨i, _, rfl⟩ := hr
  simp

theorem cell_spec_product {T : Type} [Zero T] [Add T] [Mul T] (a b : matrix T) {i j : Nat}
    (hi : i < a._rows_size) (hj : j < b._columns_size) :
    cell (spec_product a b) i j = some (dot_upto a b i j a._columns_size) := by
  simp [cell, spec_product, of_rows, List.getElem?_map, List.getElem?_range hi,
    List.getElem?_range hj]

/-- When the left operand has exactly one row more than columns, the inner bound
`rows - 1` is the shared dimension and `operator*` returns the standard product. -/
theorem mul_eq_spec_product {T : Type} [Zero T] [Inhabited T] [Add T] [Mul T] {C P : Nat}
    {a b : matrix T} (ha : hasShape (C + 1) C a) (hb : hasShape C P b)
    (hR : C + 1 < SIZE_MOD) :
    operator_mul a b = .ok (spec_product a b) := by
  obtain ⟨r, hr, hs, hc⟩ := mul_spec ha hb hR (Or.inr (Or.inr (le_refl _)))
  rw [hr]
  congr 1
  have hsp := hasShape_spec_product a b
  rw [ha.1, hb.2.1] at hsp
  apply matrix_ext hs hsp
  intro i j hi hj
  rw [hc i j hi hj, cell_spec_product a b (by rw [ha.1]; exact hi) (by rw [hb.2.1]; exact hj),
    ha.2.1]
  simp

theorem hasShape_ones (R C : Nat) : hasShape R C (ones R C) :=
  hasShape_alloc R C 1

theorem cell_ones {R C i j : Nat} (hi : i < R) (hj : j < C) : cell (ones R C) i j = some 1 := by
  simp [cell, ones, of_rows, List.getElem?_replicate, hi, hj]

/-- The first `K` terms of a dot product of all-one operands add up to `K`. -/
theorem dot_upto_ones {R C P : Nat} (hR : 0 < R) (hP : 0 < P) :
    ∀ K, K ≤ C → dot_upto (ones R C) (ones C P) 0 0 K = (K : Int) := by
  intro K
  induction K with
  | zero => intro _; simp [dot_upto]
  | succ K ih =>
    intro hK
    have h := ih (by omega)
    unfold dot_upto at h ⊢
    rw [List.range_succ, List.foldl_append, h]
    simp [entry_of_cell (cell_ones hR (show K < C by omega)),
      entry_of_cell (cell_ones (show K < C by omega) hP)]

/-- For a left operand with fewer rows than columns, the all-one operands are a pair on
which `operator*` does not return the standard product: cell `(0, 0)` is `m - 1`
instead of `n`. -/
theorem mul_ones_wrong {m n p : Nat} (hm : 1 ≤ m) (hmn : m < n) (hp : 1 ≤ p)
    (hlt : m < SIZE_MOD) :
    operator_mul (ones m n) (ones n p) ≠ .ok (spec_product (ones m n) (ones n p)) := by
  obtain ⟨r, hr, _, hc⟩ :=
    mul_spec (hasShape_ones m n) (hasShape_ones n p) hlt (Or.inr (Or.inr (by omega)))
  intro h
  rw [hr] at h
  have hreq : r = spec_product (ones m n) (ones n p) := Except.ok.inj h
  have h1 := hc 0 0 (by omega) (by omega)
  have h2 := cell_spec_product (ones m n) (ones n p) (i := 0) (j := 0)
    (show 0 < (ones m n)._rows_size by exact hm) (show 0 < (ones n p)._columns_size by exact hp)
  rw [hreq, h2] at h1
  have h3 := Option.some.inj h1
  rw [show (ones m n)._columns_size = n from rfl,
    dot_upto_ones (C := n) (show 0 < m by omega) (show 0 < p by omega) n (le_refl _),
    dot_upto_ones (C := n) (show 0 < m by omega) (show 0 < p by omega) (m - 1) (by omega)] at h3
  omega

/-- C19, as stated, fails for the shape `2 x 1` (`m = 2 >= 1`, `m != n = 1`, `p = 1`):
the inner bound `rows - 1 = 1` is the shared dimension, so for all `int` matrices `a`
(`2 x 1`) and `b` (`1 x 1`) the code returns the standard product; for instance
`[[2],[3]] * [[5]] = [[10],[15]]`. -/
theorem C19_one_more_row_is_exact :
    (1 ≤ 2 ∧ 2 ≠ 1 ∧ 1 ≤ 1) ∧
    (¬ ∃ a b : matrix Int, initialised a ∧ a.nr_of_rows = 2 ∧ a.nr_of_columns = 1 ∧
        initialised b ∧ b.nr_of_rows = 1 ∧ b.nr_of_columns = 1 ∧
        operator_mul a b ≠ .ok (spec_product a b)) ∧
    operator_mul (of_rows 2 1 [[(2 : Int)], [3]]) (of_rows 1 1 [[5]])
      = .ok (of_rows 2 1 [[10], [15]]) ∧
    spec_product (of_rows 2 1 [[(2 : Int)], [3]]) (of_rows 1 1 [[5]])
      = of_rows 2 1 [[10], [15]] := by
  refine ⟨by decide, ?_, rfl, rfl⟩
  rintro ⟨a, b, ha, har, hac, hb, hbr, hbc, hne⟩
  simp only [nr_of_rows, nr_of_columns] at har hac hbr hbc
  have hsa : hasShape (1 + 1) 1 a := by
    have h := ha.shape
    rwa [har, hac] at h
  have hsb : hasShape 1 1 b := by
    have h := hb.shape
    rwa [hbr, hbc] at h
  exact hne (mul_eq_spec_product hsa hsb (by decide))

/-- C19, amended: for every shape `m x n` with `m >= 1` and `m != n` and every `p >= 1`
(sizes being `std::size_t` values), there exist an `m x n` matrix `a` and an `n x p`
matrix `b` of `int` on which `operator*` does not return the standard product (it
returns another value or ends in a read outside an operand) if and only if
`m != n + 1`; when `m = n + 1` it returns the standard product on all operands. -/
theorem C19_nonsquare_product_wrong_iff (m n p : Nat) (hm : 1 ≤ m) (hmn : m ≠ n)
    (hp : 1 ≤ p) (hms : m < SIZE_MOD) (hns : n < SIZE_MOD) (hps : p < SIZE_MOD) :
    ((∃ a b : matrix Int, initialised a ∧ a.nr_of_rows = m ∧ a.nr_of_columns = n ∧
        initialised b ∧ b.nr_of_rows = n ∧ b.nr_of_columns = p ∧
        operator_mul a b ≠ .ok (spec_product a b)) ↔ m ≠ n + 1) ∧
    (m = n + 1 → ∀ a b : matrix Int, initialised a → a.nr_of_rows = m →
        a.nr_of_columns = n → initialised b → b.nr_of_rows = n → b.nr_of_columns = p →
        operator_mul a b = .ok (spec_product a b)) := by
  have hexact : m = n + 1 → ∀ a b : matrix Int, initialised a → a.nr_of_rows = m →
      a.nr_of_columns = n → initialised b → b.nr_of_rows = n → b.nr_of_columns = p →
      operator_mul a b = .ok (spec_product a b) := by
    intro hmn1 a b ha har hac hb hbr hbc
    simp only [nr_of_rows, nr_of_columns] at har hac hbr hbc
    subst hmn1
    have hsa : hasShape (n + 1) n a := by
      have h := ha.shape
      rwa [har, hac] at h
    have hsb : hasShape n p b := by
      have h := hb.shape
      rwa [hbr, hbc] at h
    exact mul_eq_spec_product hsa hsb hms
  refine ⟨⟨?_, ?_⟩, hexact⟩
  · rintro ⟨a, b, ha, har, hac, hb, hbr, hbc, hne⟩ hmn1
    exact hne (hexact hmn1 a b ha har hac hb hbr hbc)
  · intro hmn1
    refine ⟨ones m n, ones n p, (hasShape_ones m n).initialised hms hns, rfl, rfl,
      (hasShape_ones n p).initialised hns hps, rfl, rfl, ?_⟩
    by_cases hlt : m < n
    · exact mul_ones_wrong hm hlt hp hms
    · rw [mul_out_of_bounds (hasShape_ones m n) (hasShape_ones n p) hms hp (by omega)]
      intro h
      cases h

/-- C19 amended, at the shape `1 x 2` with `p = 1`: `[[1,1]] * [[1],[1]]` is `[[0]]` in
the code and `[[2]]` in the standard product. -/
theorem C19_nonsquare_product_wrong_iff_witness :
    (1 ≤ 1 ∧ 1 ≠ 2 ∧ 1 < SIZE_MOD ∧ 2 < SIZE_MOD) ∧
      (∃ a b : matrix Int, initialised a ∧ a.nr_of_rows = 1 ∧ a.nr_of_columns = 2 ∧
        initialised b ∧ b.nr_of_rows = 2 ∧ b.nr_of_columns = 1 ∧
        operator_mul a b ≠ .ok (spec_product a b)) ∧
      operator_mul (ones 1 2) (ones 2 1) = .ok (of_rows 1 1 [[0]]) ∧
      spec_product (ones 1 2) (ones 2 1) = of_rows 1 1 [[2]] :=
  ⟨by decide,
    (C19_nonsquare_product_wrong_iff 1 2 1 (by decide) (by decide) (by decide) (by decide)
      (by decide) (by decide)).1.mpr (by decide),
    rfl, rfl⟩

/-- C16: evaluation of `operator*` on `a = [[1,2,3],[4,5,6]]` (`2 x 3`),
`b = [[1,1,0],[0,1,0],[0,0,1]]` (`3 x 3`) and `c = [[1],[1],[1]]` (`3 x 1`).  All four
products return, but `(a * b) * c = [[1],[4]]` and `a * (b * c) = [[2],[8]]` differ
(the standard product is `[[7],[19]]`): the inner bound is the row count of the left
operand, 2 for `a` and `a * b` but 3 for `b`. -/
theorem C16_product_not_associative :
    operator_mul (of_rows 2 3 [[(1 : Int), 2, 3], [4, 5, 6]])
        (of_rows 3 3 [[1, 1, 0], [0, 1, 0], [0, 0, 1]])
      = .ok (of_rows 2 3 [[1, 1, 0], [4, 4, 0]]) ∧
    operator_mul (of_rows 2 3 [[(1 : Int), 1, 0], [4, 4, 0]]) (of_rows 3 1 [[1], [1], [1]])
      = .ok (of_rows 2 1 [[1], [4]]) ∧
    operator_mul (of_rows 3 3 [[(1 : Int), 1, 0], [0, 1, 0], [0, 0, 1]])
        (of_rows 3 1 [[1], [1], [1]])
      = .ok (of_rows 3 1 [[2], [1], [0]]) ∧
    operator_mul (of_rows 2 3 [[(1 : Int), 2, 3], [4, 5, 6]]) (of_rows 3 1 [[2], [1], [0]])
      = .ok (of_rows 2 1 [[2], [8]]) ∧
    (of_rows 2 1 [[(1 : Int)], [4]] : matrix Int) ≠ of_rows 2 1 [[2], [8]] ∧
    spec_product (of_rows 2 3 [[(1 : Int), 2, 3], [4, 5, 6]])
        (spec_product (of_rows 3 3 [[1, 1, 0], [0, 1, 0], [0, 0, 1]])
          (of_rows 3 1 [[1], [1], [1]]))
      = of_rows 2 1 [[7], [19]] :=
  ⟨rfl, rfl, rfl, rfl, by decide, rfl⟩

/-! ## The shape invariant -/

/-- A loop that returns normally keeps every predicate that each of its iterations
keeps. -/
theorem forLoop_preserves {σ : Type} (P : σ → Prop) (body : Nat → σ → Except Error σ)
    (hb : ∀ t s s', P s → body t s = .ok s' → P s') :
    ∀ (k i : Nat) (s s' : σ), P s → forLoop body k i s = .ok s' → P s' := by
  intro k
  induction k with
  | zero =>
    intro i s s' hP h
    simp only [forLoop, Except.ok.injEq] at h
    exact h ▸ hP
  | succ k ih =>
    intro i s s' hP h
    simp only [forLoop] at h
    cases hbs : body i s with
    | error e1 => rw [hbs] at h; cases h
    | ok s1 =>
      rw [hbs] at h
      exact ih (i + 1) s1 s' (hb i s s1 hP hbs) h

theorem forRange_preserves {σ : Type} (P : σ → Prop) (body : Nat → σ → Except Error σ)
    (hb : ∀ t s s', P s → body t s = .ok s' → P s') (n : Nat) (s s' : σ) (hP : P s)
    (h : forRange n body s = .ok s') : P s' :=
  forLoop_preserves P body hb n 0 s s' hP h

/-- A raw store that returns keeps the shape. -/
theorem poke_preserves {T : Type} {R C : Nat} {m m' : matrix T} {i j : Nat} {v : T}
    (hs : hasShape R C m) (h : poke m i j v = .ok m') : hasShape R C m' := by
  obtain ⟨hR, hC, d, hd, hlen, hrow⟩ := hasShape_iff.mp hs
  by_cases hi : i < R
  · by_cases hj : j < C
    · obtain ⟨m2, h1, h2, _⟩ := poke_spec hs hi hj v
      rw [h1] at h
      exact (Except.ok.inj h) ▸ h2
    · have hi2 : i < d.length := by omega
      have hr : (d[i]).length = C := hrow _ (List.getElem_mem hi2)
      have hj2 : ¬ (j < (d[i]).length) := by omega
      simp [poke, hd, List.getElem?_eq_getElem hi2, rowWrite, hj2] at h
  · have hnone : d[i]? = none := List.getElem?_eq_none (by omega)
    simp [poke, hd, hnone] at h

/-- A store `m[row][col] = v` that returns keeps the shape. -/
theorem writeCell_preserves {T : Type} {R C : Nat} {m m' : matrix T} {i j : Nat} {v : T}
    (hs : hasShape R C m) (h : writeCell m i j v = .ok m') : hasShape R C m' := by
  unfold writeCell at h
  split at h
  · cases h
  · exact poke_preserves hs h

theorem hasShape.invariant {T : Type} {R C : Nat} {m : matrix T} (h : hasShape R C m) :
    shape_invariant m := by
  obtain ⟨hR, hC, d, hd, hlen, hrow⟩ := hasShape_iff.mp h
  simp only [shape_invariant, hd]
  exact ⟨by omega, fun r hr => by rw [hrow r hr, hC]⟩

theorem shape_invariant.hasShape {T : Type} {m : matrix T} {d : List (List T)}
    (h : shape_invariant m) (hd : m._matrix = some d) :
    hasShape m._rows_size m._columns_size m := by
  simp only [shape_invariant, hd] at h
  exact hasShape_iff.mpr ⟨rfl, rfl, d, hd, h.1, h.2⟩

/-- The function `copy_matrix`, when it returns, keeps the shape of the destination. -/
theorem copy_matrix_preserves {T : Type} {R C : Nat} {this r : matrix T}
    {src : Option (List (List T))} (hs : hasShape R C this)
    (h : copy_matrix this src = .ok r) : hasShape R C r := by
  unfold copy_matrix at h
  split at h
  · cases h
  · refine forRange_preserves (hasShape R C) _ ?_ _ _ _ hs h
    intro i s s' hs1 h1
    refine forRange_preserves (hasShape R C) _ ?_ _ _ _ hs1 h1
    intro j s2 s2' hs2 h2
    split at h2
    · cases h2
    · exact poke_preserves hs2 h2

/-- The function `copy_matrix` returns on a source that satisfies the shape invariant
with the sizes of the destination. -/
theorem copy_matrix_returns {T : Type} {this src : matrix T}
    (hs : hasShape src._rows_size src._columns_size this) (hsrc : shape_invariant src) :
    ∃ r, copy_matrix this src._matrix = .ok r ∧
      hasShape src._rows_size src._columns_size r := by
  cases hd : src._matrix with
  | some d =>
    obtain ⟨r, hr, hrs, _⟩ := copy_matrix_spec hs (hsrc.hasShape hd)
    exact ⟨r, by rw [← hd]; exact hr, hrs⟩
  | none =>
    have h0 : src._rows_size = 0 := by simpa [shape_invariant, hd] using hsrc
    obtain ⟨h1, _, d, hd2, _⟩ := hasShape_iff.mp hs
    refine ⟨this, ?_, hs⟩
    simp [copy_matrix, hd2, h1, h0, forRange, forLoop]

/-- The from-source constructor, when it returns, returns a matrix of the requested
shape. -/
theorem ctor_from_preserves {T : Type} [Zero T] [Inhabited T] {rows columns : Nat}
    {buf : Option (List (List T))} {m : matrix T}
    (h : ctor_from buf rows columns = .ok m) : hasShape rows columns m := by
  obtain ⟨res, hres, hsres, _⟩ := ctor_spec (T := T) rows columns
  simp only [ctor_from, hres] at h
  exact copy_matrix_preserves hsres h

/-- The result of `operator+`, when there is one, has allocated storage of its sizes. -/
theorem operator_add_preserves {T : Type} [Zero T] [Inhabited T] [Add T] {a b r : matrix T}
    (h : operator_add a b = .ok r) : hasShape a._rows_size a._columns_size r := by
  obtain ⟨res, hres, hsres, _⟩ := ctor_spec (T := T) a._rows_size a._columns_size
  unfold operator_add at h
  split at h
  · cases h
  · split at h
    · cases h
    · simp only [hres] at h
      refine forRange_preserves (hasShape a._rows_size a._columns_size) _ ?_ _ _ _ hsres h
      intro i s s' hs1 h1
      refine forRange_preserves (hasShape a._rows_size a._columns_size) _ ?_ _ _ _ hs1 h1
      intro j s2 s2' hs2 h2
      split at h2
      · cases h2
      · split at h2
        · cases h2
        · exact writeCell_preserves hs2 h2

/-- The result of `operator-`, when there is one, has allocated storage of its sizes. -/
theorem operator_sub_preserves {T : Type} [Zero T] [Inhabited T] [Sub T] {a b r : matrix T}
    (h : operator_sub a b = .ok r) : hasShape a._rows_size a._columns_size r := by
  obtain ⟨res, hres, hsres, _⟩ := ctor_spec (T := T) a._rows_size a._columns_size
  unfold operator_sub at h
  split at h
  · cases h
  · split at h
    · cases h
    · simp only [hres] at h
      refine forRange_preserves (hasShape a._rows_size a._columns_size) _ ?_ _ _ _ hsres h
      intro i s s' hs1 h1
      refine forRange_preserves (hasShape a._rows_size a._columns_size) _ ?_ _ _ _ hs1 h1
      intro j s2 s2' hs2 h2
      split at h2
      · cases h2
      · split at h2
        · cases h2
        · exact writeCell_preserves hs2 h2

/-- The result of `operator*`, when there is one, has allocated storage of its sizes. -/
theorem operator_mul_preserves {T : Type} [Zero T] [Inhabited T] [Add T] [Mul T]
    {a b r : matrix T} (h : operator_mul a b = .ok r) :
    hasShape a._rows_size b._columns_size r := by
  obtain ⟨res, hres, hsres, _⟩ := ctor_spec (T := T) a._rows_size b._columns_size
  unfold operator_mul at h
  split at h
  · cases h
  · split at h
    · cases h
    · simp only [hres] at h
      refine forRange_preserves (hasShape a._rows_size b._columns_size) _ ?_ _ _ _ hsres h
      intro i s s' hs1 h1
      refine forRange_preserves (hasShape a._rows_size b._columns_size) _ ?_ _ _ _ hs1 h1
      intro j s2 s2' hs2 h2
      refine forRange_preserves (hasShape a._rows_size b._columns_size) _ ?_ _ _ _ hs2 h2
      intro k s3 s3' hs3 h3
      split at h3
      · cases h3
      · split at h3
        · cases h3
        · split at h3
          · cases h3
          · exact writeCell_preserves hs3 h3

/-- The result of `scalar`, when there is one, has allocated storage of its sizes. -/
theorem scalar_preserves {T : Type} [Zero T] [Inhabited T] [Mul T] {a r : matrix T} {s : T}
    (h : scalar a s = .ok r) : hasShape a._rows_size a._columns_size r := by
  unfold scalar at h
  split at h
  · cases h
  · split at h
    · cases h
    · rename_i res hres
      have hsres : hasShape a._rows_size a._columns_size res := ctor_from_preserves hres
      refine forRange_preserves (hasShape a._rows_size a._columns_size) _ ?_ _ _ _ hsres h
      intro i s1 s1' hs1 h1
      refine forRange_preserves (hasShape a._rows_size a._columns_size) _ ?_ _ _ _ hs1 h1
      intro j s2 s2' hs2 h2
      split at h2
      · cases h2
      · exact writeCell_preserves hs2 h2

/-- The result of `transpose`, when there is one, has allocated storage of its sizes. -/
theorem transpose_preserves {T : Type} [Zero T] [Inhabited T] {a r : matrix T}
    (h : transpose a = .ok r) : hasShape a._columns_size a._rows_size r := by
  obtain ⟨res, hres, hsres, _⟩ := ctor_spec (T := T) a._columns_size a._rows_size
  unfold transpose at h
  split at h
  · cases h
  · simp only [hres] at h
    refine forRange_preserves (hasShape a._columns_size a._rows_size) _ ?_ _ _ _ hsres h
    intro i s1 s1' hs1 h1
    refine forRange_preserves (hasShape a._columns_size a._rows_size) _ ?_ _ _ _ hs1 h1
    intro j s2 s2' hs2 h2
    split at h2
    · cases h2
    · exact writeCell_preserves hs2 h2

theorem clear_invariant {T : Type} (m : matrix T) (h : shape_invariant m) :
    shape_invariant (clear m) := by
  cases hd : m._matrix with
  | none =>
    have hc : clear m = m := by simp [clear, hd]
    rw [hc]; exact h
  | some d => simp [clear, hd, shape_invariant]

/-- Assignment between objects that satisfy the shape invariant returns, and leaves the
destination and the source satisfying it; this covers self-assignment, which leaves the
object released with zero rows. -/
theorem operator_assign_invariant {T : Type} [Zero T] [Inhabited T]
    (store : Nat → matrix T) (this mat : Nat) (hthis : shape_invariant (store this))
    (hmat : shape_invariant (store mat)) :
    ∃ s, operator_assign store this mat = .ok s ∧ shape_invariant (s this) ∧
      shape_invariant (s mat) := by
  by_cases hself : this = mat
  · subst hself
    unfold operator_assign
    simp only [if_true]
    by_cases hsome : (store this)._matrix.isSome = true
    · simp only [hsome, if_true]
      exact ⟨_, rfl, by simpa using clear_invariant _ hthis,
        by simpa using clear_invariant _ hthis⟩
    · simp only [hsome, if_false]
      exact ⟨_, rfl, hthis, hthis⟩
  · have key : ∀ store1 : Nat → matrix T, store1 mat = store mat →
        ∃ s, (match init ({ store1 this with
                      _rows_size := (store1 mat)._rows_size,
                      _columns_size := (store1 mat)._columns_size } : matrix T) with
          | .error e => .error e
          | .ok t1 =>
            match copy_matrix t1 (store1 mat)._matrix with
            | .error e => .error e
            | .ok t2 => .ok (Function.update store1 this t2))
          = Except.ok s ∧ shape_invariant (s this) ∧ shape_invariant (s mat) := by
      intro store1 hm
      obtain ⟨t1, ht1, hs1, _⟩ := init_spec ({ store1 this with
        _rows_size := (store1 mat)._rows_size,
        _columns_size := (store1 mat)._columns_size } : matrix T)
      simp only [hm] at ht1 hs1 ⊢
      obtain ⟨t2, ht2, hs2⟩ := copy_matrix_returns hs1 hmat
      refine ⟨Function.update store1 this t2, by simp only [ht1, ht2], ?_, ?_⟩
      · simpa using hs2.invariant
      · rw [Function.update_noteq (Ne.symm hself), hm]; exact hmat
    unfold operator_assign
    simp only [if_neg hself]
    by_cases hsome : (store this)._matrix.isSome = true
    · simp only [hsome, if_true]
      exact key _ (by simp [Function.update_noteq (Ne.symm hself)])
    · simp only [hsome, if_false]
      exact key store rfl

/-- Copy construction from a matrix that satisfies the shape invariant returns a matrix
of the same sizes with allocated storage of that shape. -/
theorem ctor_copy_invariant {T : Type} [Zero T] [Inhabited T] (a : matrix T)
    (ha : shape_invariant a) :
    ∃ m, ctor_copy a = .ok m ∧ hasShape a._rows_size a._columns_size m := by
  obtain ⟨res, hres, hsres, _⟩ := ctor_spec (T := T) a._rows_size a._columns_size
  obtain ⟨r, hr, hrs⟩ := copy_matrix_returns hsres ha
  exact ⟨r, by simp only [ctor_copy, ctor_from, hres]; exact hr, hrs⟩

/-- The function `scalar` on a matrix of shape `R x C` returns a matrix of that shape
whose cell `(i, j)` is the operand cell times `s`. -/
theorem scalar_spec {T : Type} [Zero T] [Inhabited T] [Mul T] {R C : Nat} {a : matrix T}
    (ha : hasShape R C a) (s : T) :
    ∃ r, scalar a s = .ok r ∧ hasShape R C r ∧
      ∀ i j, i < R → j < C → ∃ x, cell a i j = some x ∧ cell r i j = some (x * s) := by
  obtain ⟨res, hres, hsres, hcres⟩ := ctor_copy_spec ha
  obtain ⟨r, hr, hs, hc⟩ := scalar_loop s hsres
  refine ⟨r, ?_, hs, ?_⟩
  · obtain ⟨_, _, d, hd, _⟩ := hasShape_iff.mp ha
    have hnone : a._matrix.isNone = false := by simp [hd]
    simp only [scalar, hnone, hres, hsres.1]
    simpa using hr
  · intro i j hi hj
    obtain ⟨x, hx, hrx⟩ := hc i j hi hj
    exact ⟨x, by rw [← hcres i j hi hj, hx], hrx⟩

/-- C17: the shape invariant (storage of exactly `nr_of_rows()` row buffers, each of
exactly `nr_of_columns()` elements; a released matrix has no rows).  The three
constructors, assignment (self-assignment included, which leaves the released `0 x 0`
matrix), `+`, `-`, `*`, `scalar` and `transpose` only produce matrices that satisfy it:
the constructors and assignment return on operands that satisfy it, every matrix that
an arithmetic operation returns satisfies it, and these operations do return on
initialised operands of compatible shapes (`*` when its inner loop stays inside the
operands). -/
theorem C17_shape_invariant {T : Type} [Zero T] [Inhabited T] [Add T] [Sub T] [Mul T] :
    (∀ rows columns, ∃ m : matrix T, ctor rows columns = .ok m ∧ shape_invariant m ∧
        m.nr_of_rows = rows ∧ m.nr_of_columns = columns) ∧
    (∀ buf rows columns (m : matrix T), ctor_from buf rows columns = .ok m →
        shape_invariant m ∧ m.nr_of_rows = rows ∧ m.nr_of_columns = columns) ∧
    (∀ buf rows columns, storageShape rows columns buf →
        ∃ m : matrix T, ctor_from buf rows columns = .ok m ∧ shape_invariant m) ∧
    (∀ a : matrix T, shape_invariant a → ∃ m, ctor_copy a = .ok m ∧ shape_invariant m) ∧
    (∀ (store : Nat → matrix T) (this mat : Nat), shape_invariant (store this) →
        shape_invariant (store mat) →
        ∃ s, operator_assign store this mat = .ok s ∧ shape_invariant (s this) ∧
          shape_invariant (s mat)) ∧
    (∀ a b r : matrix T, operator_add a b = .ok r → shape_invariant r) ∧
    (∀ a b r : matrix T, operator_sub a b = .ok r → shape_invariant r) ∧
    (∀ a b r : matrix T, operator_mul a b = .ok r → shape_invariant r) ∧
    (∀ (a : matrix T) (s : T) (r : matrix T), scalar a s = .ok r → shape_invariant r) ∧
    (∀ a r : matrix T, transpose a = .ok r → shape_invariant r) ∧
    (∀ a b : matrix T, initialised a → initialised b → a.nr_of_rows = b.nr_of_rows →
        a.nr_of_columns = b.nr_of_columns →
        (∃ r, operator_add a b = .ok r ∧ shape_invariant r) ∧
        (∃ r, operator_sub a b = .ok r ∧ shape_invariant r)) ∧
    (∀ a b : matrix T, initialised a → initialised b → a.nr_of_columns = b.nr_of_rows →
        (a.nr_of_rows = 0 ∨ b.nr_of_columns = 0 ∨ a.nr_of_rows ≤ a.nr_of_columns + 1) →
        ∃ r, operator_mul a b = .ok r ∧ shape_invariant r) ∧
    (∀ (a : matrix T) (s : T), initialised a →
        (∃ r, scalar a s = .ok r ∧ shape_invariant r) ∧
        (∃ r, transpose a = .ok r ∧ shape_invariant r)) := by
  refine ⟨?_, ?_, ?_, ?_, operator_assign_invariant, ?_, ?_, ?_, ?_, ?_, ?_, ?_, ?_⟩
  · intro rows columns
    obtain ⟨m, hm, hs, _⟩ := ctor_spec (T := T) rows columns
    exact ⟨m, hm, hs.invariant, hs.1, hs.2.1⟩
  · intro buf rows columns m h
    have hs := ctor_from_preserves h
    exact ⟨hs.invariant, hs.1, hs.2.1⟩
  · intro buf rows columns hbuf
    obtain ⟨res, hres, hsres, _⟩ := ctor_spec (T := T) rows columns
    have hsrc : hasShape rows columns
        ({ _rows_size := rows, _columns_size := columns, _matrix := buf } : matrix T) :=
      ⟨rfl, rfl, hbuf⟩
    obtain ⟨r, hr, hrs, _⟩ := copy_matrix_spec hsres hsrc
    exact ⟨r, by simp only [ctor_from, hres]; exact hr, hrs.invariant⟩
  · intro a ha
    obtain ⟨m, hm, hs⟩ := ctor_copy_invariant a ha
    exact ⟨m, hm, hs.invariant⟩
  · intro a b r h
    exact (operator_add_preserves h).invariant
  · intro a b r h
    exact (operator_sub_preserves h).invariant
  · intro a b r h
    exact (operator_mul_preserves h).invariant
  · intro a s r h
    exact (scalar_preserves h).invariant
  · intro a r h
    exact (transpose_preserves h).invariant
  · intro a b ha hb hr hc
    obtain ⟨⟨r1, h1, _⟩, ⟨r2, h2, _⟩⟩ := add_sub_spec a b ha hb hr hc
    exact ⟨⟨r1, h1, (operator_add_preserves h1).invariant⟩,
      ⟨r2, h2, (operator_sub_preserves h2).invariant⟩⟩
  · intro a b ha hb hdim hcond
    simp only [nr_of_rows, nr_of_columns] at hdim hcond
    have hsb : hasShape a._columns_size b._columns_size b := by
      have h := hb.shape
      rwa [← hdim] at h
    obtain ⟨r, hr, hs, _⟩ := mul_spec ha.shape hsb ha.1 hcond
    exact ⟨r, hr, hs.invariant⟩
  · intro a s ha
    obtain ⟨r1, h1, hs1, _⟩ := scalar_spec ha.shape s
    obtain ⟨r2, h2, hs2, _⟩ := transpose_spec ha.shape
    exact ⟨⟨r1, h1, hs1.invariant⟩, ⟨r2, h2, hs2.invariant⟩⟩

/-- C17 at the concrete scenario: `A * B` is returned and satisfies the invariant, and
so does `A` after the self-assignment `A = A`. -/
theorem C17_shape_invariant_witness :
    shape_invariant scenario_A ∧
      (∃ r, operator_mul scenario_A scenario_B = .ok r ∧ shape_invariant r) ∧
      ∃ s, operator_assign (fun _ => scenario_A) 0 0 = .ok s ∧ shape_invariant (s 0) := by
  have hA : initialised scenario_A := by decide
  have hB : initialised scenario_B := by decide
  have hI : shape_invariant scenario_A := hA.shape.invariant
  have h := C17_shape_invariant (T := Int)
  obtain ⟨s, hs, hs0, _⟩ := h.2.2.2.2.1 (fun _ => scenario_A) 0 0 hI hI
  exact ⟨hI, h.2.2.2.2.2.2.2.2.2.2.2.1 scenario_A scenario_B hA hB rfl (by decide),
    s, hs, hs0⟩

end math
